import Mathlib

/-!
# Verification of the MD&A extraction engine against its design specification

This development embeds, in Lean 4, the core algorithms of the MD&A
(Management's Discussion & Analysis) extraction engine: table-region
deduplication, table-region extraction strategies, the enhanced line
classifier and its aggressive table-preservation pass, the dual-view
offset-to-line reconciler, document metadata derivation, and output
formatting.  Python strings are modelled as lists of characters
(`Line` / `Text` below); Python `re` searches used by the code are
modelled by hand-rolled decidable scanners that follow the concrete
patterns appearing in the source.  Floating-point confidence scores
(only ever compared against each other, with values 0.8, 0.9, 0.95)
are modelled in hundredths as naturals, on which comparison agrees
with the IEEE comparison of those constants.
-/

namespace MDNA

/-- A line of text, as a list of characters (a Python `str` without the
structure of `String`). -/
abbrev Line := List Char

/-- A whole document text. -/
abbrev Text := List Char

/-! ## Basic character/string utilities mirroring Python `str` methods -/

/-- Python `\s` / `str.strip` whitespace (ASCII range, as in the filings
this system processes). -/
def isPySpace (c : Char) : Bool :=
  c = ' ' ∨ c = '\t' ∨ c = '\n' ∨ c = '\r' ∨ c = '\x0b' ∨ c = '\x0c'

/-- ASCII decimal digit, Python `\d`. -/
def isPyDigit (c : Char) : Bool := '0' ≤ c ∧ c ≤ '9'

/-- Python `\w`: letters, digits, underscore (ASCII range). -/
def isPyWord (c : Char) : Bool :=
  ('a' ≤ c ∧ c ≤ 'z') ∨ ('A' ≤ c ∧ c ≤ 'Z') ∨ isPyDigit c ∨ c = '_'

/-- ASCII lowercasing of one character, Python `str.lower` on the ASCII
subset the engine handles. -/
def lowerChar (c : Char) : Char :=
  if 'A' ≤ c ∧ c ≤ 'Z' then Char.ofNat (c.toNat + 32) else c

/-- Python `str.lower` (ASCII). -/
def lower (s : Line) : Line := s.map lowerChar

/-- Python `str.lstrip()`. -/
def lstrip (s : Line) : Line := s.dropWhile isPySpace

/-- Python `str.rstrip()`. -/
def rstrip (s : Line) : Line := (s.reverse.dropWhile isPySpace).reverse

/-- Python `str.strip()`. -/
def strip (s : Line) : Line := rstrip (lstrip s)

/-- Python truthiness of `line.strip()`: `true` iff the line has a
non-whitespace character. -/
def isNonBlank (s : Line) : Bool := ¬ (strip s).isEmpty

/-- Python `str.split()` (split on whitespace runs, dropping empties). -/
def wsSplit (s : Line) : List Line :=
  (s.splitOnP isPySpace).filter (fun seg => ¬ seg.isEmpty)

/-- Python `sep.join(parts)` for a one-character separator. -/
def joinWith (sep : Line) (parts : List Line) : Line :=
  match parts with
  | [] => []
  | p :: ps => p ++ (ps.map (fun q => sep ++ q)).flatten

/-- Python `' '.join(line.split())`: collapse internal whitespace runs to
single spaces. -/
def collapseWs (s : Line) : Line := joinWith [' '] (wsSplit s)

/-- Python `text.split('\n')`. -/
def splitLines (s : Text) : List Line := s.splitOn '\n'

/-- Python `'\n'.join(lines)`. -/
def joinLines (ls : List Line) : Text := joinWith ['\n'] ls

/-- Python `sub in s` (contiguous substring containment). -/
def containsSub (s sub : Line) : Bool := decide (sub <:+: s)

/-- Count of occurrences of a character, Python `s.count(c)`. -/
def countChar (c : Char) (s : Line) : Nat := s.countP (· = c)

/-! ## Table data model and region deduplication

Source: `src/parsers/table_parser.py` (class `TableParser`) and
`src/parsers/enhanced_table_parser.py` (class `EnhancedTableParser`).

`TableR` models the fields of the `Table` dataclasses that the
deduplicators inspect (`start_line`, `end_line`, `confidence`); the
`payload` field stands for all remaining dataclass fields (`content`,
`title`, `original_text`, ...) so that structural equality — which
Python's `list.remove` uses — can distinguish tables agreeing on the
three dedup-relevant fields. -/

structure TableR where
  start_line : Nat
  end_line : Nat
  confidence : Nat
  payload : Nat := 0
  deriving DecidableEq, Repr

/-- Confidence 0.95, in hundredths.  The source only ever compares the
float constants 0.8, 0.9, 0.95 against each other, and on those
constants IEEE comparison coincides with the integer order of their
values in hundredths. -/
def conf095 : Nat := 95

/-- Confidence 0.90, in hundredths. -/
def conf090 : Nat := 90

/-- Confidence 0.80, in hundredths. -/
def conf080 : Nat := 80

/-- Stable insertion into a list sorted by the strict order `lt`:
`x` goes before the first element not strictly below it.  Together with
`sortWith` this reproduces the stable sort `list.sort` of Python. -/
def insertSorted (lt : TableR → TableR → Bool) (x : TableR) :
    List TableR → List TableR
  | [] => [x]
  | y :: ys => if lt y x then y :: insertSorted lt x ys else x :: y :: ys

/-- Stable sort by the strict order `lt` (Python `list.sort(key=...)`). -/
def sortWith (lt : TableR → TableR → Bool) : List TableR → List TableR
  | [] => []
  | x :: xs => insertSorted lt x (sortWith lt xs)

/-- `TableParser._deduplicate_tables` inner loop: the first `existing`
table of `acc` whose line range the candidate's start line falls into
(`table.start_line >= existing.start_line and table.start_line <=
existing.end_line`). -/
def findOverlapBase (t : TableR) : List TableR → Option TableR
  | [] => none
  | e :: es =>
    if e.start_line ≤ t.start_line ∧ t.start_line ≤ e.end_line then some e
    else findOverlapBase t es

/-- One iteration of the `for table in tables` loop of
`TableParser._deduplicate_tables`: accept `t` unless it overlaps an
accepted table, in which case replace that table when `t` has strictly
higher confidence and drop `t` otherwise. -/
def dedupInsertBase (acc : List TableR) (t : TableR) : List TableR :=
  match findOverlapBase t acc with
  | none => acc ++ [t]
  | some e => if e.confidence < t.confidence then acc.erase e ++ [t] else acc

/-- `TableParser._deduplicate_tables`: sort by `start_line` (stable),
then incrementally accept/replace/drop. -/
def deduplicateTables (ts : List TableR) : List TableR :=
  (sortWith (fun a b => a.start_line < b.start_line) ts).foldl dedupInsertBase []

/-- Sort order of `EnhancedTableParser._deduplicate_tables`:
`key=lambda t: (t.start_line, -t.confidence)`. -/
def enhancedLt (a b : TableR) : Bool :=
  a.start_line < b.start_line ∨
    (a.start_line = b.start_line ∧ b.confidence < a.confidence)

/-- One iteration of the `for table in tables` loop of
`EnhancedTableParser._deduplicate_tables`: drop `t` iff some accepted
table overlaps its line range (`table.start_line <= existing.end_line
and table.end_line >= existing.start_line`) with confidence at least
`t`'s; otherwise append `t` (no replacement is ever performed). -/
def dedupInsertEnhanced (acc : List TableR) (t : TableR) : List TableR :=
  if acc.any (fun e =>
      t.start_line ≤ e.end_line ∧ e.start_line ≤ t.end_line ∧
      t.confidence ≤ e.confidence) then
    acc
  else acc ++ [t]

/-- `EnhancedTableParser._deduplicate_tables`. -/
def enhancedDeduplicateTables (ts : List TableR) : List TableR :=
  (sortWith enhancedLt ts).foldl dedupInsertEnhanced []

/-- Closed-interval intersection of the line ranges of two tables, the
overlap notion of the specification. -/
def rangesIntersect (a b : TableR) : Prop :=
  a.start_line ≤ b.end_line ∧ b.start_line ≤ a.end_line

instance : DecidablePred fun p : TableR × TableR => rangesIntersect p.1 p.2 :=
  fun _ => by unfold rangesIntersect; infer_instance

/-! ## Scanners mirroring the `re` patterns used by the source

A matcher of type `Line → Option Line` tries the pattern at the start
of the input and, on success, returns the rest of the input after the
(greedy) match.  `searchM` gives `re.search` existence, `splitBy` gives
`re.split`, `subBy` gives `re.sub`, `countMatches` gives
`len(re.findall(...))`, each scanning left to right over non-overlapping
matches exactly as the `re` module does. -/

/-- Does the pattern match at some suffix (i.e. `re.search` succeeds)? -/
def searchM (m : Line → Option Line) : Line → Bool
  | [] => (m []).isSome
  | c :: cs => (m (c :: cs)).isSome || searchM m cs

/-- `re.split`: fuel-driven walker; fuel is initialised to `length + 1`
and every step either consumes at least one separator character or
moves one character into the current segment. -/
def splitByAux (m : Line → Option Line) : Nat → Line → Line → List Line
  | 0, cur, _ => [cur.reverse]
  | _, cur, [] => [cur.reverse]
  | fuel + 1, cur, c :: cs =>
    match m (c :: cs) with
    | some rest => cur.reverse :: splitByAux m fuel [] rest
    | none => splitByAux m fuel (c :: cur) cs

/-- `re.split(pattern, s)` for a separator matcher that always consumes
at least one character when it succeeds. -/
def splitBy (m : Line → Option Line) (s : Line) : List Line :=
  splitByAux m (s.length + 1) [] s

/-- `re.sub`: replace every non-overlapping match by `repl`. -/
def subByAux (m : Line → Option Line) (repl : Line) : Nat → Line → Line
  | 0, s => s
  | _, [] => []
  | fuel + 1, c :: cs =>
    match m (c :: cs) with
    | some rest => repl ++ subByAux m repl fuel rest
    | none => c :: subByAux m repl fuel cs

/-- `re.sub(pattern, repl, s)`. -/
def subBy (m : Line → Option Line) (repl : Line) (s : Line) : Line :=
  subByAux m repl (s.length + 1) s

/-- `len(re.findall(pattern, s))` for a matcher consuming at least one
character per match. -/
def countMatchesAux (m : Line → Option Line) : Nat → Line → Nat
  | 0, _ => 0
  | _, [] => 0
  | fuel + 1, c :: cs =>
    match m (c :: cs) with
    | some rest => 1 + countMatchesAux m fuel rest
    | none => countMatchesAux m fuel cs

/-- `len(re.findall(pattern, s))`. -/
def countMatches (m : Line → Option Line) (s : Line) : Nat :=
  countMatchesAux m (s.length + 1) s

/-- Consume one or more characters satisfying `p` (regex `X+`). -/
def takeOneMore (p : Char → Bool) (s : Line) : Option Line :=
  match s with
  | [] => none
  | c :: cs => if p c then some (cs.dropWhile p) else none

/-- Consume an optional single character `c` (regex `c?`). -/
def takeOpt (c : Char) (s : Line) : Line :=
  match s with
  | d :: ds => if d = c then ds else s
  | [] => s

/-- Is there a run of at least `n` consecutive characters satisfying
`p` (regex `X{n,}` searched anywhere)? -/
def hasRunGeAux (p : Char → Bool) (n cnt : Nat) : Line → Bool
  | [] => n ≤ cnt
  | c :: cs =>
    if p c then hasRunGeAux p n (cnt + 1) cs
    else n ≤ cnt || hasRunGeAux p n 0 cs

/-- `re.search(X{n,})` existence. -/
def hasRunGe (p : Char → Bool) (n : Nat) (s : Line) : Bool :=
  hasRunGeAux p n 0 s

/-- Separator matcher for `\s{n,}`: a maximal whitespace run of length
at least `n`. -/
def mWsRun (n : Nat) (s : Line) : Option Line :=
  let run := s.takeWhile isPySpace
  if n ≤ run.length then some (s.drop run.length) else none

/-- Separator matcher for `\s{3,}|\t` (the `\s{3,}` branch is tried
first and, being greedy, swallows a whole whitespace run of length ≥ 3;
otherwise a single tab matches). -/
def mWsRun3OrTab (s : Line) : Option Line :=
  match mWsRun 3 s with
  | some rest => some rest
  | none =>
    match s with
    | '\t' :: cs => some cs
    | _ => none

/-- Separator matcher for `\t|\s{3,}` (tab branch tried first). -/
def mTabOrWsRun3 (s : Line) : Option Line :=
  match s with
  | '\t' :: cs => some cs
  | _ => mWsRun 3 s

/-- Separator matcher for `' {2,}'` (literal spaces only). -/
def mSpaceRun2 (s : Line) : Option Line :=
  let run := s.takeWhile (· = ' ')
  if 2 ≤ run.length then some (s.drop run.length) else none

/-- Separator matcher for `\s{2,}`. -/
def mWsRun2 (s : Line) : Option Line := mWsRun 2 s

/-- A digit or a comma, the character class `[\d,]`. -/
def isDigitComma (c : Char) : Bool := isPyDigit c ∨ c = ','

/-- Greedy optional fraction `(?:\.\d+)?`: consume `.` followed by at
least one digit, else consume nothing. -/
def mFrac (s : Line) : Line :=
  match s with
  | '.' :: rest =>
    match takeOneMore isPyDigit rest with
    | some r => r
    | none => s
  | _ => s

/-- Matcher for the monetary pattern `\$\s*\(?[\d,]+(?:\.\d+)?\)?`
(normalizer `table_indicators['monetary']`, enhanced parser
`_is_financial_data_line`).  All trailing parts are optional, so greedy
matching needs no backtracking. -/
def mMonetary (s : Line) : Option Line :=
  match s with
  | '$' :: rest =>
    match takeOneMore isDigitComma (takeOpt '(' (rest.dropWhile isPySpace)) with
    | some r => some (takeOpt ')' (mFrac r))
    | none => none
  | _ => none

/-- Matcher for `\d+\.?\d*%` (normalizer/enhanced
`table_indicators['percentage']`). -/
def mPercent (s : Line) : Option Line :=
  match takeOneMore isPyDigit s with
  | some r1 =>
    let r2 := match r1 with
              | '.' :: rest => rest.dropWhile isPyDigit
              | _ => r1
    match r2 with
    | '%' :: rest => some rest
    | _ => none
  | none => none

/-- One group `\(?[\d,]+(?:\.\d+)?\)?` of the `numeric_columns`
pattern. -/
def mNumGroup (s : Line) : Option Line :=
  match takeOneMore isDigitComma (takeOpt '(' s) with
  | some r => some (takeOpt ')' (mFrac r))
  | none => none

/-- Matcher for `\(?[\d,]+(?:\.\d+)?\)?\s+\(?[\d,]+(?:\.\d+)?\)?`
(normalizer `table_indicators['numeric_columns']`). -/
def mNumericColumns (s : Line) : Option Line :=
  match mNumGroup s with
  | some r1 =>
    match takeOneMore isPySpace r1 with
    | some r2 => mNumGroup r2
    | none => none
  | none => none

/-- Zero or more groups `(?:,\d{3})*`: repeatedly consume a comma
followed by exactly three digits. -/
def mCommaGroups : Line → Line
  | ',' :: a :: b :: c :: rest =>
    if isPyDigit a ∧ isPyDigit b ∧ isPyDigit c then mCommaGroups rest
    else ',' :: a :: b :: c :: rest
  | s => s

/-- Matcher for `\$?\s*\(?\d{1,3}(?:,\d{3})*(?:\.\d+)?\)?` (enhanced
parser `_has_multiple_monetary_values`).  Only the `\d{1,3}` core is
mandatory; every trailing part is optional, so greedy matching is
deterministic. -/
def mSecMoney (s : Line) : Option Line :=
  let r2 := takeOpt '(' ((takeOpt '$' s).dropWhile isPySpace)
  let run := r2.takeWhile isPyDigit
  if run.isEmpty then none
  else some (takeOpt ')' (mFrac (mCommaGroups (r2.drop (min 3 run.length)))))

/-- Matcher for `\$\s*[\d,]+...` (leading part of the base parser's
currency pattern and of the extractor's `\$\s*[\d,]+`; the optional
trailing groups do not affect `re.search` existence). -/
def mCurrencyBase (s : Line) : Option Line :=
  match s with
  | '$' :: rest => takeOneMore isDigitComma (rest.dropWhile isPySpace)
  | _ => none

/-- Matcher for `\d+(?:\.\d+)?\s*%` (base parser percentage). -/
def mPercentBase (s : Line) : Option Line :=
  match takeOneMore isPyDigit s with
  | some r1 =>
    match (mFrac r1).dropWhile isPySpace with
    | '%' :: rest => some rest
    | _ => none
  | none => none

/-- Matcher for `\d+\.?\d*\s*%` (extractor percentage). -/
def mPercentExt (s : Line) : Option Line :=
  match takeOneMore isPyDigit s with
  | some r1 =>
    let r2 := match r1 with
              | '.' :: rest => rest.dropWhile isPyDigit
              | _ => r1
    match r2.dropWhile isPySpace with
    | '%' :: rest => some rest
    | _ => none
  | none => none

/-- Matcher for `\(\s*[\d,]+(?:\.\d+)?\s*\)` (base parser parenthesised
negative values). -/
def mParenBase (s : Line) : Option Line :=
  match s with
  | '(' :: rest =>
    match takeOneMore isDigitComma (rest.dropWhile isPySpace) with
    | some r2 =>
      match (mFrac r2).dropWhile isPySpace with
      | ')' :: r => some r
      | _ => none
    | none => none
  | _ => none

/-- Matcher for `\(\s*[\d,]+\.?\d*\s*\)` (extractor parenthesised
negative values; note `\.?\d*` instead of `(?:\.\d+)?`). -/
def mParenExt (s : Line) : Option Line :=
  match s with
  | '(' :: rest =>
    match takeOneMore isDigitComma (rest.dropWhile isPySpace) with
    | some r2 =>
      let r3 := match r2 with
                | '.' :: t => t.dropWhile isPyDigit
                | _ => r2
      match r3.dropWhile isPySpace with
      | ')' :: r => some r
      | _ => none
    | none => none
  | _ => none

/-- Matcher for `[\d,]+(?:\.\d+)?` (base parser
`_looks_like_table_data` number counting). -/
def mPlainNum (s : Line) : Option Line :=
  match takeOneMore isDigitComma s with
  | some r => some (mFrac r)
  | none => none

/-! ### Word boundaries and look-arounds -/

/-- `(?!\w)`: the next character, if any, is not a word character. -/
def notWordAt : Line → Bool
  | [] => true
  | c :: _ => ¬ isPyWord c

/-- Is there a word boundary `\b` between a character and the start of
the rest of the input? -/
def boundaryAfter (last : Char) : Line → Bool
  | [] => isPyWord last
  | c :: _ => isPyWord last ≠ isPyWord c

/-- `\b` at a position given the previous character (none at string
start) and the remaining input. -/
def boundaryAt (prev : Option Char) : Line → Bool
  | [] => match prev with
          | some p => isPyWord p
          | none => false
  | c :: _ => match prev with
              | some p => isPyWord p ≠ isPyWord c
              | none => isPyWord c

/-- Run a position-wise test carrying the previous character, the
existence form of `re.search` for patterns with `\b` or look-behinds. -/
def anySuffixPrevAux (q : Option Char → Line → Bool) :
    Option Char → Line → Bool
  | prev, [] => q prev []
  | prev, c :: cs => q prev (c :: cs) || anySuffixPrevAux q (some c) cs

/-- `re.search` over positions with previous-character context. -/
def anySuffixPrev (q : Option Char → Line → Bool) (s : Line) : Bool :=
  anySuffixPrevAux q none s

/-- Largest index `k ≥ 1` into `run` with `run[k] = ','` and
`run[k-1] ≠ ','` — the only way backtracking can shorten a greedy
`[\d,]+` and still satisfy a trailing boundary/look-ahead, since every
other cut leaves a digit (a word character) as the next character. -/
def commaCut (run : Line) : Option Nat :=
  ((List.range run.length).filter (fun k =>
    1 ≤ k ∧ run.get? k = some ',' ∧ run.get? (k - 1) ≠ some ',')).getLast?

/-- Matcher (with backtracking) for `[\d,]+(?:\.\d+)?(?!\w)` at a
position: returns the matched text and the rest.  The greedy run is
tried first with the greedy fraction; Python's backtracking order then
shortens the fraction (only dropping it entirely can ever help, since a
shorter fraction is followed by a digit) and finally the run (only a cut
just before a comma can help). -/
def mLooseNum (s : Line) : Option (Line × Line) :=
  let run := s.takeWhile isDigitComma
  if run.isEmpty then none
  else
    let rest := s.drop run.length
    let full : Option (Line × Line) :=
      match rest with
      | '.' :: t =>
        let ds := t.takeWhile isPyDigit
        if ¬ ds.isEmpty ∧ notWordAt (t.drop ds.length) then
          some (run ++ '.' :: ds, t.drop ds.length)
        else
          -- dropping the fraction leaves '.', which is not a word
          -- character, so `(?!\w)` holds
          some (run, rest)
      | _ => if notWordAt rest then some (run, rest) else none
    match full with
    | some r => some r
    | none =>
      match commaCut run with
      | some k => some (run.take k, s.drop k)
      | none => none

/-- `re.findall(r'(?<!\w)[\d,]+(?:\.\d+)?(?!\w)', s)` (base parser
`_is_financial_data_line`): the list of matched texts, scanning left to
right with the look-behind checked against the previous character. -/
def findLooseNumsAux : Nat → Option Char → Line → List Line
  | 0, _, _ => []
  | _, _, [] => []
  | fuel + 1, prev, c :: cs =>
    if (match prev with | some p => !(isPyWord p) | none => true) then
      match mLooseNum (c :: cs) with
      | some (text, rest) =>
        match text.getLast? with
        | some lc => text :: findLooseNumsAux fuel (some lc) rest
        | none => findLooseNumsAux fuel (some c) cs
      | none => findLooseNumsAux fuel (some c) cs
    else findLooseNumsAux fuel (some c) cs

/-- `re.findall(r'(?<!\w)[\d,]+(?:\.\d+)?(?!\w)', s)`. -/
def findLooseNums (s : Line) : List Line :=
  findLooseNumsAux (s.length + 1) none s

/-- Matcher (with backtracking) for `[\d,]+\.?\d*\b` at a position:
returns the matched text and the rest.  As in `mLooseNum`, only the
full fraction, the bare dot (`\d*` empty, boundary between `.` and a
following word character), dropping the dot, or a cut before a comma
can satisfy the trailing `\b`. -/
def mBNum (s : Line) : Option (Line × Line) :=
  let run := s.takeWhile isDigitComma
  if run.isEmpty then none
  else
    let rest := s.drop run.length
    let full : Option (Line × Line) :=
      match rest with
      | '.' :: t =>
        let ds := t.takeWhile isPyDigit
        if ¬ ds.isEmpty ∧ boundaryAfter (ds.getLastD '.') (t.drop ds.length) then
          some (run ++ '.' :: ds, t.drop ds.length)
        else if boundaryAfter '.' t then
          -- `\d*` matches the empty string just after the dot
          some (run ++ ['.'], t)
        else if boundaryAfter (run.getLastD '.') rest then
          some (run, rest)
        else none
      | _ =>
        if boundaryAfter (run.getLastD '.') rest then some (run, rest) else none
    match full with
    | some r => some r
    | none =>
      match commaCut run with
      | some k => some (run.take k, s.drop k)
      | none => none

/-- `re.findall(r'\b[\d,]+\.?\d*\b', s)` (extractor
`_contains_financial_data`): matched texts, with the leading `\b`
checked against the previous character. -/
def findBNumsAux : Nat → Option Char → Line → List Line
  | 0, _, _ => []
  | _, _, [] => []
  | fuel + 1, prev, c :: cs =>
    if boundaryAt prev (c :: cs) then
      match mBNum (c :: cs) with
      | some (text, rest) =>
        match text.getLast? with
        | some lc => text :: findBNumsAux fuel (some lc) rest
        | none => findBNumsAux fuel (some c) cs
      | none => findBNumsAux fuel (some c) cs
    else findBNumsAux fuel (some c) cs

/-- `re.findall(r'\b[\d,]+\.?\d*\b', s)`. -/
def findBNums (s : Line) : List Line :=
  findBNumsAux (s.length + 1) none s

/-! ### Substring occurrence positions (Python `str.find` / `str.rfind`) -/

/-- All indices at which `sub` occurs in `s`. -/
def subOccurrences (s sub : Line) : List Nat :=
  (List.range (s.length + 1)).filter (fun i => (s.drop i).take sub.length = sub)

/-- Python `s.find(sub)`: first occurrence index, `-1` modelled as
`none`. -/
def findSubPos (s sub : Line) : Option Nat := (subOccurrences s sub).head?

/-- Python `s.rfind(sub)`: last occurrence index. -/
def rfindSubPos (s sub : Line) : Option Nat := (subOccurrences s sub).getLast?

/-! ### Case-insensitive literal search -/

/-- Does `needle` (already lower-case) occur at the start of `s`,
case-insensitively? -/
def startsWithCI (needle : Line) (s : Line) : Bool :=
  needle.isPrefixOf (lower (s.take needle.length))

/-- Case-insensitive `re.search` for a literal: the rest of the input
after the leftmost occurrence of `needle` (given lower-case). -/
def findCIAux : Nat → Line → Line → Option Line
  | 0, _, _ => none
  | _, needle, [] => if needle.isEmpty then some [] else none
  | fuel + 1, needle, c :: cs =>
    if startsWithCI needle (c :: cs) then some ((c :: cs).drop needle.length)
    else findCIAux fuel needle cs

/-- Leftmost case-insensitive occurrence of a literal; returns the rest
of the input after it. -/
def findCI (needle : Line) (s : Line) : Option Line :=
  findCIAux (s.length + 1) needle s

/-- Case-insensitive substring containment (Python
`needle in s.lower()` with a lower-case needle). -/
def containsCI (needle : Line) (s : Line) : Bool := (findCI needle s).isSome

/-- `re.search` existence for a boolean position test. -/
def anySuffixB (q : Line → Bool) : Line → Bool
  | [] => q []
  | c :: cs => q (c :: cs) || anySuffixB q cs

/-! ### Date / year / keyword scanners -/

/-- The twelve month names of the normalizer `dates` pattern. -/
def monthNames : List Line :=
  ["december".data, "january".data, "february".data, "march".data,
   "april".data, "may".data, "june".data, "july".data, "august".data,
   "september".data, "october".data, "november".data]

/-- `,?\s+\d{4}` after the day digits of the `dates` pattern. -/
def dateAfterDay (r : Line) : Bool :=
  match takeOneMore isPySpace (takeOpt ',' r) with
  | some r4 => 4 ≤ (r4.takeWhile isPyDigit).length
  | none => false

/-- The `dates` pattern
`(?:december|...|november)\s+\d{1,2},?\s+\d{4}` at one position
(`re.IGNORECASE`); `\d{1,2}` may take one or two digits. -/
def mMonthDateAt (s : Line) : Bool :=
  monthNames.any fun mo =>
    startsWithCI mo s &&
      (match takeOneMore isPySpace (s.drop mo.length) with
       | some r1 =>
         let run := r1.takeWhile isPyDigit
         (decide (2 ≤ run.length) && dateAfterDay (r1.drop 2)) ||
           (decide (1 ≤ run.length) && dateAfterDay (r1.drop 1))
       | none => false)

/-- `re.search` of the normalizer `dates` pattern. -/
def searchDates (s : Line) : Bool := anySuffixB mMonthDateAt s

/-- `\d{4}`: exactly four digits. -/
def take4Digits (r : Line) : Option Line :=
  if 4 ≤ (r.takeWhile isPyDigit).length then some (r.drop 4) else none

/-- The `year_headers` pattern `\b\d{4}\s+\d{4}\s+\d{4}\b` at one
position. -/
def mYearTripleAt (prev : Option Char) (s : Line) : Bool :=
  boundaryAt prev s &&
    (match take4Digits s with
     | some r1 =>
       match takeOneMore isPySpace r1 with
       | some r2 =>
         match take4Digits r2 with
         | some r3 =>
           match takeOneMore isPySpace r3 with
           | some r4 =>
             match take4Digits r4 with
             | some r5 => notWordAt r5
             | none => false
           | none => false
         | none => false
       | none => false
     | none => false)

/-- `re.search` of the `year_headers` pattern. -/
def searchYearTriple (s : Line) : Bool := anySuffixPrev mYearTripleAt s

/-- `\b\d{4}\b` at one position (a maximal four-digit run). -/
def mBounded4At (prev : Option Char) (s : Line) : Bool :=
  boundaryAt prev s &&
    (match take4Digits s with
     | some r => notWordAt r
     | none => false)

/-- Rest of the input after the leftmost `\b\d{4}\b` match. -/
def firstBounded4Rest : Option Char → Line → Option Line
  | _, [] => none
  | prev, c :: cs =>
    if mBounded4At prev (c :: cs) then some ((c :: cs).drop 4)
    else firstBounded4Rest (some c) cs

/-- `re.search(r'\b\d{4}\b.*\b\d{4}\b', s)` (two disjoint bounded
four-digit runs; lines contain no newline, so `.*` imposes no further
constraint). -/
def searchTwoBounded4 (s : Line) : Bool :=
  match firstBounded4Rest none s with
  | some rest => anySuffixPrevAux mBounded4At (some '0') rest
  | none => false

/-- The four month names of the extractor-style header pattern
`(?:december|march|june|september)`. -/
def monthNames4 : List Line :=
  ["december".data, "march".data, "june".data, "september".data]

/-- `re.search(r'(?:december|march|june|september)\s+\d{1,2}', s)` on a
lower-cased line: month name, whitespace, at least one digit. -/
def searchMonth4Digit (s : Line) : Bool :=
  anySuffixB (fun t =>
    monthNames4.any fun mo =>
      startsWithCI mo t &&
        (match takeOneMore isPySpace (t.drop mo.length) with
         | some r => (takeOneMore isPyDigit r).isSome
         | none => false)) s

/-- The sixteen alternatives of the normalizer `financial_terms`
pattern. -/
def finTermWords : List Line :=
  ["revenue".data, "income".data, "profit".data, "loss".data,
   "assets".data, "liabilities".data, "equity".data, "cash".data,
   "flow".data, "expenses".data, "costs".data, "sales".data,
   "operating".data, "net".data, "gross".data, "total".data]

/-- `\b(?:revenue|...|total)\b` at one position (`re.IGNORECASE`);
every alternative starts and ends with a letter, so the boundaries
reduce to non-word context on both sides. -/
def mFinTermAt (prev : Option Char) (t : Line) : Bool :=
  finTermWords.any fun w =>
    startsWithCI w t && boundaryAt prev t && notWordAt (t.drop w.length)

/-- `re.search` of the `financial_terms` pattern. -/
def searchFinTermRegex (s : Line) : Bool := anySuffixPrev mFinTermAt s

/-! ## Enhanced line classifier and aggressive table preservation

Source: `src/parsers/enhanced_text_normalizer.py`
(`EnhancedTextNormalizer._classify_line_enhanced` and
`_aggressively_preserve_tables`). -/

/-- The classifications assigned by the line classifier. -/
inductive LineClass where
  | empty
  | table_delimiter
  | monetary_data
  | table_header
  | table_content
  | potential_table
  | table_continuation
  | regular_text
  deriving DecidableEq, Repr

/-- A delimiter character of the `delimiters` pattern `^[-=_+]{3,}$`. -/
def isDelimCharN (c : Char) : Bool := c = '-' ∨ c = '=' ∨ c = '_' ∨ c = '+'

/-- `re.search(r'^[-=_+]{3,}$', stripped)`: the anchors force the whole
(stripped, newline-free) line to be delimiter characters, at least
three of them. -/
def searchDelimiters (stripped : Line) : Bool :=
  decide (3 ≤ stripped.length) && stripped.all isDelimCharN

/-- `re.search` of the normalizer `pipes` pattern `\|.*\|.*\|`: `.`
does not cross a newline, so some newline-free segment must hold three
pipes.  (Classifier inputs come from `text.split('\n')` and contain no
newline, making this the three-pipe test on the line itself.) -/
def searchPipes (line : Line) : Bool :=
  (splitLines line).any fun seg => decide (3 ≤ countChar '|' seg)

/-- The `financial_headers` phrase list of
`EnhancedTextNormalizer._is_enhanced_table_header`. -/
def finHeaderPhrases : List Line :=
  ["statement of".data, "balance sheet".data, "income statement".data,
   "cash flow".data, "year ended".data, "quarter ended".data,
   "period ended".data, "fiscal year".data, "for the year".data,
   "for the quarter".data, "for the period".data, "in thousands".data,
   "in millions".data, "in billions".data, "unaudited".data,
   "audited".data, "consolidated".data]

/-- The short `financial_terms` list of
`EnhancedTextNormalizer._is_enhanced_table_header`. -/
def finTermsShort : List Line :=
  ["revenue".data, "income".data, "assets".data, "liabilities".data,
   "equity".data, "cash".data]

/-- `EnhancedTextNormalizer._is_enhanced_table_header`. -/
def isEnhancedTableHeaderN (line : Line) : Bool :=
  finHeaderPhrases.any (fun h => containsCI h line) ||
    (searchTwoBounded4 line || searchMonth4Digit line) ||
    (finTermsShort.any (fun t => containsCI t line) &&
      hasRunGe isPySpace 4 line)

/-- `EnhancedTextNormalizer._has_table_context`: at least two of the
lines in the ±3 window (the line itself included) show monetary,
percentage, columnar-whitespace or header evidence. -/
def hasTableContext (allLines : List Line) (i : Nat) : Bool :=
  let start := i - 3
  let stop := min allLines.length (i + 4)
  let ctx := (allLines.drop start).take (stop - start)
  decide (2 ≤ (ctx.filter fun l =>
    searchM mMonetary l || searchM mPercent l ||
      hasRunGe isPySpace 4 l || isEnhancedTableHeaderN l).length)

/-- The continuation phrases of
`EnhancedTextNormalizer._is_table_continuation`. -/
def continuationPhrasesN : List Line :=
  ["total".data, "subtotal".data, "net".data, "gross".data, "less:".data,
   "add:".data, "deduct:".data, "continued".data, "cont.".data,
   "see note".data, "refer to".data, "as of".data]

/-- `EnhancedTextNormalizer._is_table_continuation`. -/
def isTableContinuationN (line : Line) : Bool :=
  let ll := strip (lower line)
  continuationPhrasesN.any fun p => containsSub ll p

/-- `EnhancedTextNormalizer._classify_line_enhanced`: the ordered,
first-match-wins rule chain. -/
def classifyLineEnhanced (line : Line) (allLines : List Line) (i : Nat) :
    LineClass :=
  let stripped := strip line
  if stripped.isEmpty then .empty
  else if searchDelimiters stripped then .table_delimiter
  else if searchM mMonetary line &&
      (hasRunGe isPySpace 4 line || line.contains '\t' ||
        searchM mNumericColumns line) then .monetary_data
  else if isEnhancedTableHeaderN line then .table_header
  else if searchPipes line then .table_content
  else if decide (2 ≤ countMatches mMonetary line) ||
      decide (2 ≤ countMatches mPercent line) then .monetary_data
  else if searchM mNumericColumns line && hasTableContext allLines i then
    .table_content
  else if hasRunGe isPySpace 4 line && searchFinTermRegex line then
    .potential_table
  else if searchDates line || searchYearTriple line then .table_header
  else if isTableContinuationN line then .table_continuation
  else .regular_text

/-- First pass of `_aggressively_preserve_tables`: classify every line
of the document. -/
def classifyAll (lines : List Line) : List LineClass :=
  (List.range lines.length).map fun i =>
    classifyLineEnhanced (lines.getD i []) lines i

/-- `EnhancedTextNormalizer._cautiously_format_line`:
`re.sub(r' {2,}', '    ', line.rstrip())`. -/
def cautiouslyFormatLine (line : Line) : Line :=
  subBy mSpaceRun2 "    ".data (rstrip line)

/-- One step of the second pass of `_aggressively_preserve_tables`:
table lines keep everything but trailing whitespace, continuations are
stripped, potential tables are cautiously formatted, and remaining
lines (regular text and empties) are whitespace-collapsed with at most
4 columns of indentation kept, empty results contributing at most one
blank separator line. -/
def processStep (acc : List Line) (line : Line) (cls : LineClass) :
    List Line :=
  match cls with
  | .table_header | .table_content | .table_delimiter | .monetary_data =>
    acc ++ [rstrip line]
  | .table_continuation => acc ++ [strip line]
  | .potential_table => acc ++ [cautiouslyFormatLine line]
  | _ =>
    let indent := line.length - (lstrip line).length
    let cleaned := collapseWs line
    if ¬ cleaned.isEmpty then
      acc ++ [List.replicate (min indent 4) ' ' ++ cleaned]
    else if (match acc.getLast? with
             | some last => isNonBlank last
             | none => false) then acc ++ [[]]
    else acc

/-- Second pass of `_aggressively_preserve_tables`. -/
def processPass (lines : List Line) : List Line :=
  ((lines.zip (classifyAll lines)).foldl
    (fun acc p => processStep acc p.1 p.2) [])

/-- `EnhancedTextNormalizer._clean_excessive_empty_lines`: keep at most
three consecutive blank lines. -/
def cleanEmptyAux : Nat → List Line → List Line
  | _, [] => []
  | ec, l :: ls =>
    if ¬ isNonBlank l then
      if ec + 1 ≤ 3 then l :: cleanEmptyAux (ec + 1) ls
      else cleanEmptyAux (ec + 1) ls
    else l :: cleanEmptyAux 0 ls

/-- `EnhancedTextNormalizer._clean_excessive_empty_lines`. -/
def cleanExcessiveEmptyLines (lines : List Line) : List Line :=
  cleanEmptyAux 0 lines

/-- `EnhancedTextNormalizer._aggressively_preserve_tables`: split,
classify, process, clean up blank runs, and re-join. -/
def aggressivelyPreserveTables (text : Text) : Text :=
  joinLines (cleanExcessiveEmptyLines (processPass (splitLines text)))

/-! ## Base table parser (`src/parsers/table_parser.py`, class
`TableParser`): line predicates and the four extraction strategies -/

/-- Modelled from the spec: `TABLE_MIN_ROWS` is imported from
`config/settings.py`, which is not under `src/`; §4.2 of the
specification fixes its default at 2 ("a candidate region must have
≥2 rows (`TABLE_MIN_ROWS`, configurable)"). -/
def TABLE_MIN_ROWS : Nat := 2

/-- `TableParser._is_horizontal_delimiter`: after stripping, at least
3 characters, and once spaces are removed exactly one distinct
character remains, drawn from `-`, `=`, `_`. -/
def isHorizontalDelimiter (line : Line) : Bool :=
  let stripped := strip line
  if stripped.length < 3 then false
  else
    match stripped.filter (· ≠ ' ') with
    | [] => false
    | c :: cs => (c = '-' ∨ c = '=' ∨ c = '_') && cs.all (· = c)

/-- `TableParser._is_financial_data_line`: currency, percentage or
parenthesised amounts, or at least two loose numbers spread more than
`len(numbers[0]) + 10` positions apart (`str.find` / `str.rfind` of the
matched texts). -/
def isFinancialDataLineB (line : Line) : Bool :=
  searchM mCurrencyBase line ||
  searchM mPercentBase line ||
  searchM mParenBase line ||
  (let numbers := findLooseNums line
   decide (2 ≤ numbers.length) &&
     (match findSubPos line (numbers.headD []),
            rfindSubPos line (numbers.getLastD []) with
      | some first, some last =>
        decide ((numbers.headD []).length + 10 < last - first)
      | _, _ => false))

/-- `TableParser._is_table_line`. -/
def isTableLineB (line : Line) : Bool :=
  (hasRunGe isPySpace 3 line &&
    (let segs := splitBy (mWsRun 3) (strip line)
     decide (2 ≤ segs.length) &&
       decide (2 ≤ (segs.filter isNonBlank).length))) ||
  (line.contains '\t' &&
    decide (2 ≤ ((line.splitOn '\t').filter isNonBlank).length)) ||
  decide (2 ≤ countChar '|' line) ||
  isHorizontalDelimiter line ||
  isFinancialDataLineB line

/-- The continuation keyword list of
`TableParser._is_table_continuation`. -/
def continuationKeywordsB : List Line :=
  ["total".data, "subtotal".data, "net".data, "gross".data, "sum".data,
   "see note".data, "see accompanying".data, "continued".data,
   "includes".data, "excludes".data, "consists of".data,
   "represents".data, "related to".data, "primarily".data]

/-- `re.match(r'^\s*\([a-z0-9]\)', line, re.IGNORECASE)`. -/
def matchNoteMarker (line : Line) : Bool :=
  match line.dropWhile isPySpace with
  | '(' :: c :: ')' :: _ =>
    ('a' ≤ c ∧ c ≤ 'z') ∨ ('A' ≤ c ∧ c ≤ 'Z') ∨ isPyDigit c
  | _ => false

/-- `re.match(r'^\s*\*+...', line)`: optional whitespace then at least
one asterisk. -/
def matchFootnoteStar (line : Line) : Bool :=
  match line.dropWhile isPySpace with
  | '*' :: _ => true
  | _ => false

/-- `TableParser._is_table_continuation`. -/
def isTableContinuationB (line : Line) : Bool :=
  let ll := lower line
  continuationKeywordsB.any (fun k => containsSub ll k) ||
    matchNoteMarker line || matchFootnoteStar line

/-- `(?:total|subtotal|net|gross)\s*:?\s*\$?[\d,]` at one position
(`re.IGNORECASE`). -/
def mTotalAmountAt (t : Line) : Bool :=
  ["total".data, "subtotal".data, "net".data, "gross".data].any fun k =>
    startsWithCI k t &&
      (let r := (t.drop k.length).dropWhile isPySpace
       match (takeOpt '$' ((takeOpt ':' r).dropWhile isPySpace)) with
       | c :: _ => isDigitComma c
       | [] => false)

/-- `\s+(?:note|accompanying)` after `see` / `refer to`. -/
def afterSeeRefer (r : Line) : Bool :=
  match takeOneMore isPySpace r with
  | some r2 => startsWithCI "note".data r2 || startsWithCI "accompanying".data r2
  | none => false

/-- `(?:see|refer\s+to)\s+(?:note|accompanying)` at one position
(`re.IGNORECASE`). -/
def mSeeReferAt (t : Line) : Bool :=
  (startsWithCI "see".data t && afterSeeRefer (t.drop 3)) ||
    (startsWithCI "refer".data t &&
      (match takeOneMore isPySpace (t.drop 5) with
       | some r => startsWithCI "to".data r && afterSeeRefer (r.drop 2)
       | none => false))

/-- `TableParser._is_table_note_or_total`: any of the four note/total
patterns matches. -/
def isTableNoteOrTotal (line : Line) : Bool :=
  matchNoteMarker line || matchFootnoteStar line ||
    anySuffixB mTotalAmountAt line || anySuffixB mSeeReferAt line

/-- `TableParser._looks_like_table_data`. -/
def looksLikeTableData (line : Line) : Bool :=
  (line.any isPyDigit &&
    (decide (2 ≤ countMatches mPlainNum line) || isFinancialDataLineB line)) ||
  ((hasRunGe isPySpace 3 line || line.contains '\t') &&
    decide (2 ≤ ((splitBy mWsRun3OrTab (strip line)).filter isNonBlank).length))

/-- The title indicator list of `TableParser._extract_table_title`. -/
def titleIndicatorsB : List Line :=
  ["table".data, "schedule".data, "summary".data, "consolidated".data,
   "condensed".data, "statement".data, "analysis".data]

/-- One candidate line of `TableParser._extract_table_title`: a
non-blank, short, non-table, non-number line not ending in a period,
returned when it carries a title indicator or is longer than 10
characters. -/
def titleCandidate (lines : List Line) (idx : Nat) : Option Line :=
  let line := strip (lines.getD idx [])
  if line.isEmpty then none
  else if decide (line.length < 200) && !(isTableLineB line) &&
      !(isFinancialDataLineB line) && !(decide (line.getLast? = some '.')) &&
      !(line.all isPyDigit) then
    if titleIndicatorsB.any (fun ind => containsSub (lower line) ind) then
      some line
    else if decide (10 < line.length) then some line
    else none
  else none

/-- `TableParser._extract_table_title`: look back over
`range(1, min(4, table_start + 1))` preceding lines. -/
def extractTableTitle (lines : List Line) (tableStart : Nat) : Option Line :=
  (((List.range (min 4 (tableStart + 1))).drop 1).map
    (fun i => tableStart - i)).findSome? (titleCandidate lines)

/-- A detected table of the base parser (the `content`, `start_pos`
and `end_pos` fields of the `Table` dataclass are always `[]`, `0`,
`0` at the construction sites and are omitted). -/
structure TableB where
  start_line : Nat
  end_line : Nat
  title : Option Line
  confidence : Nat
  table_type : Line
  raw_lines : List Line
  deriving DecidableEq, Repr

/-- Collection loop of `TableParser._extract_financial_table`: walk
forward counting appended lines, tolerating at most two consecutive
blanks (appended), recording whether any scanned non-blank line —
including the line at which the walk stops — bears a digit. -/
def finScanB : List Line → Nat → Nat → Bool → Nat × Bool
  | [], count, _, hasNum => (count, hasNum)
  | line :: rest, count, ce, hasNum =>
    if ¬ isNonBlank line then
      if 2 < ce + 1 then (count, hasNum)
      else finScanB rest (count + 1) (ce + 1) hasNum
    else
      let hasNum2 := hasNum || line.any isPyDigit
      if isTableLineB line || isFinancialDataLineB line ||
          isTableContinuationB line then
        finScanB rest (count + 1) 0 hasNum2
      else if isTableNoteOrTotal line then finScanB rest (count + 1) 0 hasNum2
      else (count, hasNum2)

/-- Title probe of `TableParser._extract_financial_table`: the line
above the anchor becomes the title (and the region start moves up one
line) when it is not table-like, non-blank and short. -/
def finTitleStart (lines : List Line) (startIdx : Nat) : Option Line × Nat :=
  if 0 < startIdx ∧ ¬ isTableLineB (lines.getD (startIdx - 1) []) then
    let pt := strip (lines.getD (startIdx - 1) [])
    if ¬ pt.isEmpty ∧ pt.length < 200 then (some pt, startIdx - 1)
    else (none, startIdx)
  else (none, startIdx)

/-- `TableParser._extract_financial_table`. -/
def extractFinancialTableB (lines : List Line) (startIdx : Nat) :
    Option TableB :=
  let titleInfo := finTitleStart lines startIdx
  let scanned := finScanB (lines.drop startIdx) 0 0 false
  if scanned.1 < TABLE_MIN_ROWS ∨ scanned.2 = false then none
  else
    let tableEnd := startIdx + scanned.1 - 1
    some ⟨titleInfo.2, tableEnd, titleInfo.1, conf095, "financial".data,
          (lines.drop titleInfo.2).take (tableEnd + 1 - titleInfo.2)⟩

/-- Data-row collection loop of `TableParser._extract_delimited_table`
(`while current_line < len(lines) and consecutive_empty < 2`; only the
first blank of a run is appended). -/
def delimScanB : List Line → Nat → Nat → Nat
  | [], count, _ => count
  | line :: rest, count, ce =>
    if 2 ≤ ce then count
    else if ¬ isNonBlank line then
      if ce + 1 = 1 then delimScanB rest (count + 1) (ce + 1)
      else delimScanB rest count (ce + 1)
    else if looksLikeTableData line || isTableContinuationB line then
      delimScanB rest (count + 1) 0
    else count

/-- `TableParser._extract_delimited_table`: requires a non-blank line
above the delimiter, collects header + delimiter + data rows, and
checks only the row minimum (no digit requirement). -/
def extractDelimitedTable (lines : List Line) (delimiterLine : Nat) :
    Option TableB :=
  if 0 < delimiterLine ∧ ¬ isNonBlank (lines.getD (delimiterLine - 1) []) then
    none
  else
    let tableStart := if 0 < delimiterLine then delimiterLine - 1
                      else delimiterLine
    let headerCount := if 0 < delimiterLine then 1 else 0
    let count := headerCount + 1 + delimScanB (lines.drop (delimiterLine + 1)) 0 0
    if count < TABLE_MIN_ROWS then none
    else
      let endLine := tableStart + count - 1
      some ⟨tableStart, endLine, extractTableTitle lines tableStart, conf090,
            "delimited".data, (lines.drop tableStart).take (endLine + 1 - tableStart)⟩

/-- Collection loop of `TableParser._extract_pipe_table`. -/
def pipeScanB : List Line → Nat → Nat
  | [], count => count
  | line :: rest, count =>
    if line.contains '|' then pipeScanB rest (count + 1)
    else if isNonBlank line && isTableContinuationB line then
      pipeScanB rest (count + 1)
    else count

/-- `TableParser._extract_pipe_table`: collects pipe-bearing lines and
continuations, and checks only the row minimum (no digit
requirement). -/
def extractPipeTable (lines : List Line) (startLine : Nat) : Option TableB :=
  let count := pipeScanB (lines.drop startLine) 0
  if count < TABLE_MIN_ROWS then none
  else
    let endLine := startLine + count - 1
    some ⟨startLine, endLine, extractTableTitle lines startLine, conf095,
          "delimited".data, (lines.drop startLine).take (endLine + 1 - startLine)⟩

/-- Collection loop of `TableParser._extract_aligned_table` (forward of
the header line; only the first blank of a run is appended). -/
def alignedScanB : List Line → Nat → Nat → Bool → Nat × Bool
  | [], count, _, hasNum => (count, hasNum)
  | line :: rest, count, ce, hasNum =>
    if 2 ≤ ce then (count, hasNum)
    else if ¬ isNonBlank line then
      if ce + 1 = 1 then alignedScanB rest (count + 1) (ce + 1) hasNum
      else alignedScanB rest count (ce + 1) hasNum
    else
      let hasNum2 := hasNum || line.any isPyDigit
      if isTableLineB line || isFinancialDataLineB line ||
          isTableContinuationB line then
        alignedScanB rest (count + 1) 0 hasNum2
      else (count, hasNum2)

/-- `TableParser._extract_aligned_table`. -/
def extractAlignedTable (lines : List Line) (startLine : Nat) :
    Option TableB :=
  let scanned := alignedScanB (lines.drop (startLine + 1)) 0 0 false
  let count := 1 + scanned.1
  if count < TABLE_MIN_ROWS ∨ scanned.2 = false then none
  else
    let endLine := startLine + count - 1
    some ⟨startLine, endLine, extractTableTitle lines startLine, conf080,
          "aligned".data, (lines.drop startLine).take (endLine + 1 - startLine)⟩

/-! ## Enhanced table parser
(`src/parsers/enhanced_table_parser.py`, class `EnhancedTableParser`):
the financial extraction strategy and its helpers.  Fallible paths
(`AttributeError` from `_is_table_content_line(line, None)`,
`IndexError` from `lines[start_line]`) are modelled with `Except Unit`;
an exception propagates out of the per-document extraction. -/

deriving instance DecidableEq for Except

/-- The `financial_keywords` set of `EnhancedTableParser.__init__`
(tested by plain substring containment on the lower-cased line). -/
def financialKeywords : List Line :=
  ["revenue".data, "income".data, "profit".data, "loss".data,
   "assets".data, "liabilities".data, "equity".data, "cash".data,
   "flow".data, "expenses".data, "costs".data, "sales".data,
   "operating".data, "net".data, "gross".data, "total".data,
   "current".data, "non-current".data, "stockholder".data,
   "shareholder".data]

/-- `EnhancedTableParser._has_columnar_structure`: a `\s{4,}` run that
splits the stripped line into ≥2 segments, or a tab that splits into
≥2 raw segments, or a `\s{2,}` split into ≥2 segments at least one of
which bears a digit, dollar or percent. -/
def hasColumnarStructure (line : Line) : Bool :=
  (hasRunGe isPySpace 4 line &&
    decide (2 ≤ (splitBy (mWsRun 4) (strip line)).length)) ||
  (line.contains '\t' && decide (2 ≤ (line.splitOn '\t').length)) ||
  (let segs := splitBy mWsRun2 (strip line)
   decide (2 ≤ segs.length) &&
     decide (1 ≤ (segs.filter fun seg =>
       seg.any fun c => isPyDigit c ∨ c = '$' ∨ c = '%').length))

/-- `EnhancedTableParser._has_multiple_monetary_values`: at least two
matches of the loose monetary pattern or of the percentage pattern. -/
def hasMultipleMonetaryValues (line : Line) : Bool :=
  decide (2 ≤ countMatches mSecMoney line) ||
    decide (2 ≤ countMatches mPercent line)

/-- `EnhancedTableParser._is_financial_data_line`: a financial keyword
substring, a dollar amount, or any digit/comma character combined with
columnar structure (the `has_numbers` pattern
`\(?[\d,]+(?:\.\d+)?\)?` matches exactly when a digit or comma is
present). -/
def isFinancialDataLineE (line : Line) : Bool :=
  financialKeywords.any (fun k => containsCI k line) ||
    searchM mMonetary line ||
    (line.any isDigitComma && hasColumnarStructure line)

/-- The section-break phrase list of
`EnhancedTableParser._is_section_break`. -/
def sectionBreakPhrases : List Line :=
  ["notes to".data, "see note".data, "refer to note".data,
   "accompanying notes".data, "see accompanying".data,
   "end of table".data, "continued on".data, "see page".data]

/-- `EnhancedTableParser._is_section_break`. -/
def isSectionBreak (line : Line) : Bool :=
  let ll := strip (lower line)
  sectionBreakPhrases.any fun p => containsSub ll p

/-- `EnhancedTableParser._extract_enhanced_table_title`, looking back
over `range(1, min(6, table_start + 1))` preceding lines.  The source
calls `self._is_table_content_line(line, None)` on every non-empty
candidate shorter than 200 characters; when the line has neither
columnar structure nor multiple monetary values, that call evaluates
`None.table_type` and raises `AttributeError` (modelled as `.error`),
so the keyword/capitalised-phrase branches below it are unreachable
and no title is ever produced. -/
def extractEnhancedTitleAux (lines : List Line) :
    List Nat → Except Unit (Option Line)
  | [] => .ok none
  | idx :: rest =>
    let line := strip (lines.getD idx [])
    if line.isEmpty then extractEnhancedTitleAux lines rest
    else if ¬ line.length < 200 then extractEnhancedTitleAux lines rest
    else if hasColumnarStructure line || hasMultipleMonetaryValues line then
      extractEnhancedTitleAux lines rest
    else .error ()

/-- `EnhancedTableParser._extract_enhanced_table_title`. -/
def extractEnhancedTableTitle (lines : List Line) (tableStart : Nat) :
    Except Unit (Option Line) :=
  extractEnhancedTitleAux lines
    (((List.range (min 6 (tableStart + 1))).drop 1).map fun i => tableStart - i)

/-- Result of the collection loop of
`EnhancedTableParser._extract_financial_table`. -/
structure FinScanState where
  current : Nat
  rows : Nat
  hasMon : Bool
  hasPct : Bool
  deriving DecidableEq, Repr

/-- Collection loop of `EnhancedTableParser._extract_financial_table`
(`while current_line < len(lines) and consecutive_empty < 3`): blank
lines only advance; data-like lines are appended as rows; other lines
stop the walk when they are a section break or lie more than 50 lines
past the anchor, and are silently skipped otherwise. -/
def finScanE (startIdx : Nat) :
    List Line → Nat → Nat → FinScanState → FinScanState
  | [], idx, _, st => { st with current := idx }
  | line :: rest, idx, ce, st =>
    if ¬ ce < 3 then { st with current := idx }
    else if ¬ isNonBlank line then finScanE startIdx rest (idx + 1) (ce + 1) st
    else if isFinancialDataLineE line || hasColumnarStructure line ||
        hasMultipleMonetaryValues line then
      finScanE startIdx rest (idx + 1) 0
        { current := idx, rows := st.rows + 1,
          hasMon := st.hasMon || line.contains '$' || line.any isPyDigit,
          hasPct := st.hasPct || line.contains '%' }
    else if isSectionBreak line ∨ 50 < idx - startIdx then
      { st with current := idx }
    else finScanE startIdx rest (idx + 1) 0 st

/-- A detected table of the enhanced parser (the `content` cell lists
produced by `_parse_financial_line`, `column_count`, and the constant
`start_pos`/`end_pos`/`original_text` bookkeeping are omitted: each
appended data row contributes exactly one row to `row_count`, which is
what the acceptance check reads). -/
structure TableE where
  start_line : Nat
  end_line : Nat
  title : Option Line
  confidence : Nat
  table_type : Line
  row_count : Nat
  has_monetary_data : Bool
  has_percentage_data : Bool
  deriving DecidableEq, Repr

/-- `EnhancedTableParser._extract_financial_table`: header row (when
non-blank), forward collection, row-minimum check (no digit
requirement), then title extraction (which may raise), with
`end_line = current_line - 1`. -/
def extractFinancialTableE (lines : List Line) (startLine : Nat) :
    Except Unit (Option TableE) :=
  match lines.get? startLine with
  | none => .error ()
  | some headerLine =>
    let rows0 := if (strip headerLine).isEmpty then 0 else 1
    let st := finScanE startLine (lines.drop (startLine + 1)) (startLine + 1) 0
      { current := startLine + 1, rows := rows0, hasMon := false, hasPct := false }
    if st.rows < TABLE_MIN_ROWS then .ok none
    else
      match extractEnhancedTableTitle lines startLine with
      | .error e => .error e
      | .ok title =>
        .ok (some ⟨startLine, st.current - 1, title, conf095, "financial".data,
                   st.rows, st.hasMon, st.hasPct⟩)

/-! ## Extractor (`src/core/extractor.py`, class `MDNAExtractor`):
assembly-time text handling, the offset-to-line reconciler, metadata
derivation, and output formatting -/

/-- `MDNAExtractor._contains_financial_data`. -/
def containsFinancialData (line : Line) : Bool :=
  searchM mCurrencyBase line ||
  searchM mPercentExt line ||
  searchM mParenExt line ||
  (let numbers := findBNums line
   decide (2 ≤ numbers.length) &&
     (match findSubPos line (numbers.headD []),
            rfindSubPos line (numbers.getLastD []) with
      | some first, some last => decide (20 < last - first)
      | _, _ => false))

/-- `MDNAExtractor._is_table_line` (note: the `\t|\s{3,}` split is
applied to the raw line, not the stripped line). -/
def isTableLineX (line : Line) : Bool :=
  ((line.contains '\t' || hasRunGe isPySpace 3 line) &&
    decide (2 ≤ ((splitBy mTabOrWsRun3 line).filter isNonBlank).length)) ||
  containsFinancialData line ||
  decide (2 ≤ countChar '|' line)

/-- `\b(?:total|subtotal|net|gross)\b` at one position on the
lower-cased line. -/
def mContWordAt (prev : Option Char) (t : Line) : Bool :=
  ["total".data, "subtotal".data, "net".data, "gross".data].any fun w =>
    startsWithCI w t && boundaryAt prev t && notWordAt (t.drop w.length)

/-- `re.search(r'^\s*(?:see|refer to|includes|excludes|represents)',
line_lower)`: anchored at the start. -/
def matchSeeStartX (ll : Line) : Bool :=
  let r := ll.dropWhile isPySpace
  ["see".data, "refer to".data, "includes".data, "excludes".data,
   "represents".data].any fun w => w.isPrefixOf r

/-- `MDNAExtractor._is_table_continuation`. -/
def isTableContinuationX (line : Line) : Bool :=
  let ll := lower line
  anySuffixPrev mContWordAt ll ||
    matchNoteMarker ll ||
    matchFootnoteStar line ||
    matchSeeStartX ll

/-- `MDNAExtractor._is_regular_text_line`: non-blank, not table-like,
and either sentence-ending (`[.!?]\s*$` on the stripped line) or more
than five words with no columnar whitespace. -/
def isRegularTextLine (line : Line) : Bool :=
  if ¬ isNonBlank line then false
  else if isTableLineX line || isTableContinuationX line then false
  else if (match (strip line).getLast? with
           | some c => decide (c = '.' ∨ c = '!' ∨ c = '?')
           | none => false) then true
  else decide (5 < (wsSplit line).length) &&
    !(hasRunGe isPySpace 3 line || line.contains '\t')

/-- `MDNAExtractor._normalize_text_line`: keep up to four characters of
leading whitespace (`^(\s{0,4})`) and collapse the content's
whitespace runs. -/
def normalizeTextLine (line : Line) : Line :=
  let indent := (line.takeWhile isPySpace).take 4
  let content := collapseWs (strip line)
  if content.isEmpty then [] else indent ++ content

/-- Loop of `MDNAExtractor._map_positions_to_lines`: walk the lines
with a running character offset (`line_end = current_pos + len(line)`,
next line starting at `line_end + 1`), recording the line whose
inclusive `[line_start, line_end]` range contains each target offset
and stopping at the line containing `end_pos`. -/
def mapLoop : List Line → Nat → Nat → Nat → Nat → Nat → Nat → Nat × Nat
  | [], _, _, _, _, sline, eline => (sline, eline)
  | line :: rest, startPos, endPos, curPos, i, sline, eline =>
    let lineEnd := curPos + line.length
    let sline2 := if curPos ≤ startPos ∧ startPos ≤ lineEnd then i else sline
    if curPos ≤ endPos ∧ endPos ≤ lineEnd then (sline2, i)
    else mapLoop rest startPos endPos (lineEnd + 1) (i + 1) sline2 eline

/-- `MDNAExtractor._map_positions_to_lines` (initial
`end_line = len(lines) - 1` is the fallback when no line range
contains `end_pos`). -/
def mapPositionsToLines (content : Text) (startPos endPos : Nat) :
    Nat × Nat :=
  let lines := splitLines content
  mapLoop lines startPos endPos 0 0 0 (lines.length - 1)

/-! ### Metadata derivation -/

/-- A calendar date as produced by `datetime.strptime`. -/
structure DateR where
  y : Nat
  m : Nat
  d : Nat
  deriving DecidableEq, Repr

/-- Gregorian leap year (as `datetime` validates). -/
def isLeapYear (y : Nat) : Bool := (y % 4 = 0 ∧ y % 100 ≠ 0) ∨ y % 400 = 0

/-- Days in a month (as `datetime` validates). -/
def daysInMonth (y m : Nat) : Nat :=
  if m = 2 then (if isLeapYear y then 29 else 28)
  else if m = 4 ∨ m = 6 ∨ m = 9 ∨ m = 11 then 30
  else 31

/-- `datetime` validity: year ≥ 1 (MINYEAR), month 1–12, day in
range. -/
def validDate (y m d : Nat) : Bool :=
  1 ≤ y ∧ 1 ≤ m ∧ m ≤ 12 ∧ 1 ≤ d ∧ d ≤ daysInMonth y m

/-- Numeric value of a digit string. -/
def digitsToNat (ds : Line) : Nat :=
  ds.foldl (fun acc c => acc * 10 + (c.toNat - '0'.toNat)) 0

/-- `datetime.strptime(s, '%Y%m%d')`, `none` on `ValueError`. -/
def parseYmd8 (ds : Line) : Option DateR :=
  if ds.length = 8 ∧ ds.all isPyDigit then
    let y := digitsToNat (ds.take 4)
    let m := digitsToNat ((ds.drop 4).take 2)
    let d := digitsToNat (ds.drop 6)
    if validDate y m d then some ⟨y, m, d⟩ else none
  else none

/-- `datetime.strptime(s, '%Y-%m-%d')` on a `\d{4}-\d{2}-\d{2}` group,
`none` on `ValueError`. -/
def parseYmdDash (ds : Line) : Option DateR :=
  match ds with
  | [y1, y2, y3, y4, '-', m1, m2, '-', d1, d2] =>
    if [y1, y2, y3, y4, m1, m2, d1, d2].all isPyDigit then
      let y := digitsToNat [y1, y2, y3, y4]
      let m := digitsToNat [m1, m2]
      let d := digitsToNat [d1, d2]
      if validDate y m d then some ⟨y, m, d⟩ else none
    else none
  | _ => none

/-- Python `str.zfill(10)`. -/
def zfill10 (s : Line) : Line := List.replicate (10 - s.length) '0' ++ s

/-- ASCII uppercasing (Python `str.upper` on the ASCII subset). -/
def upperChar (c : Char) : Char :=
  if 'a' ≤ c ∧ c ≤ 'z' then Char.ofNat (c.toNat - 32) else c

/-- Python `str.upper` (ASCII). -/
def upper (s : Line) : Line := s.map upperChar

/-- Leftmost position-wise match of an option-valued matcher
(`re.search` returning captured data). -/
def firstMatch {α : Type} (m : Line → Option α) : Line → Option α
  | [] => m []
  | c :: cs =>
    match m (c :: cs) with
    | some r => some r
    | none => firstMatch m cs

/-- The filename pattern
`(\d{8})_(10-[KQ](?:/A)?)_edgar_data_(\d{1,10})_([0-9\-]+)\.txt`
(`re.IGNORECASE`) tried at one position; returns
(date group, form group, cik group). -/
def mFilenameAt (s : Line) : Option (Line × Line × Line) :=
  let dateStr := s.take 8
  if ¬ (dateStr.length = 8 ∧ dateStr.all isPyDigit) then none
  else
    match s.drop 8 with
    | '_' :: '1' :: '0' :: '-' :: k :: r2 =>
      if k = 'K' ∨ k = 'k' ∨ k = 'Q' ∨ k = 'q' then
        let formPair : Line × Line :=
          match r2 with
          | '/' :: a :: rr =>
            if a = 'A' ∨ a = 'a' then (['1', '0', '-', k, '/', a], rr)
            else (['1', '0', '-', k], r2)
          | _ => (['1', '0', '-', k], r2)
        if startsWithCI "_edgar_data_".data formPair.2 then
          let r4 := formPair.2.drop 12
          let run := r4.takeWhile isPyDigit
          if 1 ≤ run.length ∧ run.length ≤ 10 then
            match r4.drop run.length with
            | '_' :: r5 =>
              let run2 := r5.takeWhile (fun c => isPyDigit c ∨ c = '-')
              if 1 ≤ run2.length then
                match r5.drop run2.length with
                | '.' :: t1 :: t2 :: t3 :: _ =>
                  if (t1 = 't' ∨ t1 = 'T') ∧ (t2 = 'x' ∨ t2 = 'X') ∧
                      (t3 = 't' ∨ t3 = 'T') then
                    some (dateStr, formPair.1, run)
                  else none
                | _ => none
              else none
            | _ => none
          else none
        else none
      else none
    | _ => none

/-- `MDNAExtractor._parse_filename_metadata`: `(cik, filing_date,
form_type)`, with `cik.zfill(10)`, the form upper-cased, and the date
parsed leniently (a bad date leaves `filing_date = None` but keeps the
other fields). -/
def parseFilenameMetadata (filename : Line) :
    Option Line × Option DateR × Option Line :=
  match firstMatch mFilenameAt filename with
  | some (dateStr, formRaw, cik) =>
    (some (zfill10 cik), parseYmd8 dateStr, some (upper formRaw))
  | none => (none, none, none)

/-- `LABEL\s*(\d+)` at one position: a case-insensitive literal, then
whitespace, then the digit group. -/
def mLabeledDigits (needle : Line) (t : Line) : Option Line :=
  if startsWithCI needle t then
    let ds := ((t.drop needle.length).dropWhile isPySpace).takeWhile isPyDigit
    if ds.isEmpty then none else some ds
  else none

/-- `C\.I\.K\.\s*NO\.\s*(\d+)` at one position. -/
def mCikNoAt (t : Line) : Option Line :=
  if startsWithCI "c.i.k.".data t then
    let r := (t.drop 6).dropWhile isPySpace
    if startsWithCI "no.".data r then
      let ds := ((r.drop 3).dropWhile isPySpace).takeWhile isPyDigit
      if ds.isEmpty then none else some ds
    else none
  else none

/-- `MDNAExtractor._extract_cik`: the three labelled patterns over the
first 5000 characters, zero-filled to ten digits. -/
def extractCik (content : Text) : Option Line :=
  let head := content.take 5000
  match firstMatch (mLabeledDigits "central index key:".data) head with
  | some ds => some (zfill10 ds)
  | none =>
    match firstMatch (mLabeledDigits "cik:".data) head with
    | some ds => some (zfill10 ds)
    | none =>
      match firstMatch mCikNoAt head with
      | some ds => some (zfill10 ds)
      | none => none

/-- `(10-[KQ])(?:/A)?` after a matched prefix: the normalised form
string, with `/A` appended when `'/A' in match.group(0).upper()`. -/
def formTail (r : Line) : Option Line :=
  match r with
  | '1' :: '0' :: '-' :: k :: rest =>
    let base : Option Line :=
      if k = 'K' ∨ k = 'k' then some "10-K".data
      else if k = 'Q' ∨ k = 'q' then some "10-Q".data
      else none
    match base with
    | some b =>
      match rest with
      | '/' :: a :: _ =>
        if a = 'A' ∨ a = 'a' then some (b ++ "/A".data) else some b
      | _ => some b
    | none => none
  | _ => none

/-- `FORM\s+(10-[KQ])(?:/A)?` at one position (`re.IGNORECASE`). -/
def mForm1At (t : Line) : Option Line :=
  if startsWithCI "form".data t then
    match takeOneMore isPySpace (t.drop 4) with
    | some r => formTail r
    | none => none
  else none

/-- `FORM\s+TYPE:\s*(10-[KQ])(?:/A)?` at one position
(`re.IGNORECASE`). -/
def mForm2At (t : Line) : Option Line :=
  if startsWithCI "form".data t then
    match takeOneMore isPySpace (t.drop 4) with
    | some r =>
      if startsWithCI "type:".data r then
        formTail ((r.drop 5).dropWhile isPySpace)
      else none
    | none => none
  else none

/-- The regex phase of `MDNAExtractor._extract_form_type` over the
first 2000 characters. -/
def formTypePatternResult (content : Text) : Option Line :=
  let header := content.take 2000
  match firstMatch mForm1At header with
  | some f => some f
  | none => firstMatch mForm2At header

/-- The upper-cased-substring fallback phase of
`MDNAExtractor._extract_form_type`. -/
def formTypeSubstring (content : Text) : Option Line :=
  let headerU := upper (content.take 2000)
  if containsSub headerU "FORM 10-Q".data then some "10-Q".data
  else if containsSub headerU "FORM 10-K".data then some "10-K".data
  else none

/-- `MDNAExtractor._extract_form_type`: patterns, then substring
fallback, then the unconditional `'10-K'` default — the function is
total and never reports a missing form type. -/
def extractFormType (content : Text) : Line :=
  match formTypePatternResult content with
  | some f => f
  | none =>
    match formTypeSubstring content with
    | some f => f
    | none => "10-K".data

/-- `FILED AS OF DATE:\s*(\d{8})` at one position. -/
def mFiledDateAt (t : Line) : Option Line :=
  if startsWithCI "filed as of date:".data t then
    let r := (t.drop 17).dropWhile isPySpace
    if 8 ≤ (r.takeWhile isPyDigit).length then some (r.take 8) else none
  else none

/-- `DATE OF REPORT[^:]*:\s*(\d{4}-\d{2}-\d{2})` at one position
(the greedy `[^:]*` stops at the first colon). -/
def mReportDateAt (t : Line) : Option Line :=
  if startsWithCI "date of report".data t then
    match (t.drop 14).dropWhile (· ≠ ':') with
    | ':' :: r2 =>
      let g := (r2.dropWhile isPySpace).take 10
      match g with
      | [_, _, _, _, '-', _, _, '-', _, _] =>
        if (g.filter (· ≠ '-')).all isPyDigit then some g else none
      | _ => none
    | _ => none
  else none

/-- `MDNAExtractor._extract_filing_date`: each pattern's group is
parsed with `%Y%m%d` then `%Y-%m-%d`; parse failures fall through to
the next pattern, and everything failing yields `None`. -/
def extractFilingDate (content : Text) : Option DateR :=
  let head := content.take 2000
  let second : Option DateR :=
    match firstMatch mReportDateAt head with
    | some ds =>
      match parseYmd8 ds with
      | some d => some d
      | none => parseYmdDash ds
    | none => none
  match firstMatch mFiledDateAt head with
  | some ds =>
    match parseYmd8 ds with
    | some d => some d
    | none =>
      match parseYmdDash ds with
      | some d => some d
      | none => second
  | none => second

/-- A run of case-insensitive literals separated by `\s*` (the shape of
the company-name label patterns); returns the rest after the last
literal. -/
def matchLiteralsWs : List Line → Line → Option Line
  | [], t => some t
  | [w], t => if startsWithCI w t then some (t.drop w.length) else none
  | w :: ws, t =>
    if startsWithCI w t then
      matchLiteralsWs ws ((t.drop w.length).dropWhile isPySpace)
    else none

/-- `\s*([^\n]+)` after a label: the greedy `\s*` backtracks just far
enough to leave a non-newline character for the group, which then runs
to the end of the line. -/
def groupRestOfLine (r : Line) : Option Line :=
  let run := r.takeWhile isPySpace
  let ks := (List.range (run.length + 1)).filter fun k =>
    match (r.drop k).head? with
    | some c => ¬ c = '\n'
    | none => false
  match ks.getLast? with
  | some k => some ((r.drop k).takeWhile (fun c => ¬ c = '\n'))
  | none => none

/-- One company-name pattern (`LABEL...:\s*([^\n]+)`) at one
position. -/
def companyPatternAt (words : List Line) (t : Line) : Option Line :=
  match matchLiteralsWs words t with
  | some r => groupRestOfLine r
  | none => none

/-- One pattern of `MDNAExtractor._extract_company_name`: first match
over the first 5000 characters, cleaned up (`strip`, whitespace runs
collapsed) and length-checked `3 < len < 100`. -/
def companyCandidate (words : List Line) (content : Text) : Option Line :=
  match firstMatch (companyPatternAt words) (content.take 5000) with
  | some g =>
    let name := subBy (mWsRun 1) [' '] (strip g)
    if 3 < name.length ∧ name.length < 100 then some name else none
  | none => none

/-- `MDNAExtractor._extract_company_name`: the three labelled patterns
in order, with the total `"Unknown Company"` default. -/
def extractCompanyName (content : Text) : Line :=
  match companyCandidate ["company".data, "conformed".data, "name:".data]
      content with
  | some n => n
  | none =>
    match companyCandidate ["conformed".data, "name:".data] content with
    | some n => n
    | none =>
      match companyCandidate ["registrant".data, "name:".data] content with
      | some n => n
      | none => "Unknown Company".data

/-- Modelled from the spec: the `Filing` record lives in
`src/models/filing.py`, which is not under `src/`; §6 of the
specification lists its identity fields (identifier, company name,
form type, filing date).  The filesystem-derived `file_path` /
`file_size` bookkeeping is out of the algorithmic core. -/
structure FilingR where
  cik : Line
  company_name : Line
  form_type : Line
  filing_date : Option DateR
  deriving DecidableEq, Repr

/-- `MDNAExtractor._create_filing_from_text`: filename metadata first,
content-derived fallbacks second; fails exactly when no identifier
(CIK) is derivable, since the form type always defaults. -/
def createFilingFromText (filename : Line) (content : Text) :
    Option FilingR :=
  let meta := parseFilenameMetadata filename
  let cik := match meta.1 with
             | some c => some c
             | none => extractCik content
  let filingDate := match meta.2.1 with
                    | some d => some d
                    | none => extractFilingDate content
  let formType := match meta.2.2 with
                  | some f => f
                  | none => extractFormType content
  match cik with
  | none => none
  | some c => some ⟨c, extractCompanyName content, formType, filingDate⟩

/-! ### Output formatting -/

/-- Modelled from the spec: the `ExtractionResult` record lives in
`src/models/filing.py`, which is not under `src/`; §3 of the
specification lists the fields the output header reads (filing
identity, extracted text, word count).  `filing_date_str` carries the
`str(...)` rendering interpolated by the f-string. -/
structure ExtractionResultR where
  cik : Line
  company_name : Line
  form_type : Line
  filing_date_str : Line
  word_count : Nat
  mdna_text : Text
  deriving DecidableEq, Repr

/-- The lines assembled by `MDNAExtractor._format_output`; `now` is
the `datetime.now().isoformat()` timestamp interpolated into the
header (made an explicit argument of the model). -/
def formatOutputLines (r : ExtractionResultR) (now : Line) : List Text :=
  [List.replicate 80 '=',
   "CIK: ".data ++ r.cik,
   "Company: ".data ++ r.company_name,
   "Form Type: ".data ++ r.form_type,
   "Filing Date: ".data ++ r.filing_date_str,
   "Extraction Date: ".data ++ now,
   "Word Count: ".data ++ (Nat.repr r.word_count).data,
   List.replicate 80 '=',
   [],
   r.mdna_text]

/-- `MDNAExtractor._format_output`. -/
def formatOutput (r : ExtractionResultR) (now : Line) : Text :=
  joinLines (formatOutputLines r now)

/-! ## Theorems -/

/-- C6: on exactly two overlapping candidates — confidence 0.95 over
lines [10,20] and confidence 0.90 over lines [15,25] — both
deduplicators (`TableParser._deduplicate_tables` and
`EnhancedTableParser._deduplicate_tables`) return only the first
region and drop the second entirely. -/
theorem dedup_precedence_C6 :
    deduplicateTables [⟨10, 20, conf095, 0⟩, ⟨15, 25, conf090, 0⟩] =
        [⟨10, 20, conf095, 0⟩] ∧
      enhancedDeduplicateTables [⟨10, 20, conf095, 0⟩, ⟨15, 25, conf090, 0⟩] =
        [⟨10, 20, conf095, 0⟩] := by
  decide

/-- C1 (failing input): with the same two overlapping regions but the
confidences swapped — 0.90 over [10,20] first, 0.95 over [15,25]
second — `EnhancedTableParser._deduplicate_tables` keeps *both*: the
later, higher-confidence candidate is appended without removing the
overlapped lower-confidence one (its loop has no replacement branch),
so the returned list contains two tables whose closed line ranges
intersect, refuting the no-overlap invariant. -/
theorem dedup_overlap_bug_C1 :
    enhancedDeduplicateTables [⟨10, 20, conf090, 0⟩, ⟨15, 25, conf095, 0⟩] =
        [⟨10, 20, conf090, 0⟩, ⟨15, 25, conf095, 0⟩] ∧
      rangesIntersect ⟨10, 20, conf090, 0⟩ ⟨15, 25, conf095, 0⟩ :=
  ⟨by decide, by decide, by decide⟩

/-- The collection loop of the base financial extraction appends at
most one row per remaining line. -/
theorem finScanB_count_le (rest : List Line) :
    ∀ c ce hn, (finScanB rest c ce hn).1 ≤ c + rest.length := by
  induction rest with
  | nil => intro c ce hn; simp [finScanB]
  | cons line rest ih =>
    intro c ce hn
    simp only [finScanB]
    split
    · split
      · simp
      · have := ih (c + 1) (ce + 1) hn
        simp only [List.length_cons]; omega
    · split
      · have := ih (c + 1) 0 (hn || line.any isPyDigit)
        simp only [List.length_cons]; omega
      · split
        · have := ih (c + 1) 0 (hn || line.any isPyDigit)
          simp only [List.length_cons]; omega
        · simp

/-- The row counter of the base financial collection loop never
decreases. -/
theorem finScanB_count_ge (rest : List Line) :
    ∀ c ce hn, c ≤ (finScanB rest c ce hn).1 := by
  induction rest with
  | nil => intro c ce hn; simp [finScanB]
  | cons line rest ih =>
    intro c ce hn
    simp only [finScanB]
    split
    · split
      · simp
      · have := ih (c + 1) (ce + 1) hn
        omega
    · split
      · have := ih (c + 1) 0 (hn || line.any isPyDigit)
        omega
      · split
        · have := ih (c + 1) 0 (hn || line.any isPyDigit)
          omega
        · simp

/-- When the base financial collection loop reports numeric data, the
digit was seen on the incoming flag or on a scanned line no further
than the final row count. -/
theorem finScanB_digit (rest : List Line) :
    ∀ c ce hn, (finScanB rest c ce hn).2 = true →
      hn = true ∨ ∃ k l, rest.get? k = some l ∧ l.any isPyDigit = true ∧
        k + c ≤ (finScanB rest c ce hn).1 := by
  induction rest with
  | nil =>
    intro c ce hn h
    simp [finScanB] at h
    exact Or.inl h
  | cons line rest ih =>
    intro c ce hn h
    by_cases h1 : isNonBlank line = true
    · by_cases h2 : (isTableLineB line || isFinancialDataLineB line ||
          isTableContinuationB line) = true
      · simp only [finScanB, h1, h2, not_true, if_false, if_true,
          Bool.false_eq_true, Bool.true_eq_false] at h ⊢
        rcases ih (c + 1) 0 (hn || line.any isPyDigit) h with hl | ⟨k, l, hk, hd, hb⟩
        · rcases Bool.or_eq_true_iff.mp hl with ha | hd0
          · exact Or.inl ha
          · refine Or.inr ⟨0, line, rfl, hd0, ?_⟩
            have := finScanB_count_ge rest (c + 1) 0 (hn || line.any isPyDigit)
            omega
        · exact Or.inr ⟨k + 1, l, by simpa using hk, hd, by omega⟩
      · by_cases h3 : isTableNoteOrTotal line = true
        · simp only [finScanB, h1, h2, h3, not_true, if_false, if_true,
            Bool.false_eq_true, Bool.true_eq_false] at h ⊢
          rcases ih (c + 1) 0 (hn || line.any isPyDigit) h with hl | ⟨k, l, hk, hd, hb⟩
          · rcases Bool.or_eq_true_iff.mp hl with ha | hd0
            · exact Or.inl ha
            · refine Or.inr ⟨0, line, rfl, hd0, ?_⟩
              have := finScanB_count_ge rest (c + 1) 0 (hn || line.any isPyDigit)
              omega
          · exact Or.inr ⟨k + 1, l, by simpa using hk, hd, by omega⟩
        · simp only [finScanB, h1, h2, h3, not_true, if_false, if_true,
            Bool.false_eq_true, Bool.true_eq_false] at h ⊢
          rcases Bool.or_eq_true_iff.mp h with ha | hd0
          · exact Or.inl ha
          · exact Or.inr ⟨0, line, rfl, hd0, by omega⟩
    · by_cases h2 : 2 < ce + 1
      · simp only [finScanB, h1, h2, not_false_eq_true, if_true,
          Bool.false_eq_true, Bool.true_eq_false] at h ⊢
        exact Or.inl h
      · simp only [finScanB, h1, h2, not_false_eq_true, if_true, if_false,
          Bool.false_eq_true, Bool.true_eq_false] at h ⊢
        rcases ih (c + 1) (ce + 1) hn h with hl | ⟨k, l, hk, hd, hb⟩
        · exact Or.inl hl
        · exact Or.inr ⟨k + 1, l, by simpa using hk, hd, by omega⟩

/-- The aligned collection loop appends at most one row per remaining
line. -/
theorem alignedScanB_count_le (rest : List Line) :
    ∀ c ce hn, (alignedScanB rest c ce hn).1 ≤ c + rest.length := by
  induction rest with
  | nil => intro c ce hn; simp [alignedScanB]
  | cons line rest ih =>
    intro c ce hn
    simp only [alignedScanB]
    split
    · simp
    · split
      · split
        · have := ih (c + 1) (ce + 1) hn
          simp only [List.length_cons]; omega
        · have := ih c (ce + 1) hn
          simp only [List.length_cons]; omega
      · split
        · have := ih (c + 1) 0 (hn || line.any isPyDigit)
          simp only [List.length_cons]; omega
        · simp

/-- The row counter of the aligned collection loop never decreases. -/
theorem alignedScanB_count_ge (rest : List Line) :
    ∀ c ce hn, c ≤ (alignedScanB rest c ce hn).1 := by
  induction rest with
  | nil => intro c ce hn; simp [alignedScanB]
  | cons line rest ih =>
    intro c ce hn
    simp only [alignedScanB]
    split
    · simp
    · split
      · split
        · have := ih (c + 1) (ce + 1) hn
          omega
        · have := ih c (ce + 1) hn
          omega
      · split
        · have := ih (c + 1) 0 (hn || line.any isPyDigit)
          omega
        · simp

/-- When the aligned collection loop reports numeric data, the digit
was seen on the incoming flag or on a scanned line no further than the
final row count. -/
theorem alignedScanB_digit (rest : List Line) :
    ∀ c ce hn, (alignedScanB rest c ce hn).2 = true →
      hn = true ∨ ∃ k l, rest.get? k = some l ∧ l.any isPyDigit = true ∧
        k + c ≤ (alignedScanB rest c ce hn).1 := by
  induction rest with
  | nil =>
    intro c ce hn h
    simp [alignedScanB] at h
    exact Or.inl h
  | cons line rest ih =>
    intro c ce hn h
    by_cases h0 : 2 ≤ ce
    · simp only [alignedScanB, h0, if_true] at h ⊢
      exact Or.inl h
    · by_cases h1 : isNonBlank line = true
      · by_cases h2 : (isTableLineB line || isFinancialDataLineB line ||
            isTableContinuationB line) = true
        · simp only [alignedScanB, h0, h1, h2, not_true, if_false, if_true,
            Bool.false_eq_true, Bool.true_eq_false] at h ⊢
          rcases ih (c + 1) 0 (hn || line.any isPyDigit) h with hl | ⟨k, l, hk, hd, hb⟩
          · rcases Bool.or_eq_true_iff.mp hl with ha | hd0
            · exact Or.inl ha
            · refine Or.inr ⟨0, line, rfl, hd0, ?_⟩
              have := alignedScanB_count_ge rest (c + 1) 0 (hn || line.any isPyDigit)
              omega
          · exact Or.inr ⟨k + 1, l, by simpa using hk, hd, by omega⟩
        · simp only [alignedScanB, h0, h1, h2, not_true, if_false, if_true,
            Bool.false_eq_true, Bool.true_eq_false] at h ⊢
          rcases Bool.or_eq_true_iff.mp h with ha | hd0
          · exact Or.inl ha
          · exact Or.inr ⟨0, line, rfl, hd0, by omega⟩
      · by_cases h2 : ce + 1 = 1
        · simp only [alignedScanB, h0, h1, h2, not_false_eq_true, if_true, if_false,
            Bool.false_eq_true, Bool.true_eq_false] at h ⊢
          rcases ih (c + 1) 1 hn h with hl | ⟨k, l, hk, hd, hb⟩
          · exact Or.inl hl
          · exact Or.inr ⟨k + 1, l, by simpa using hk, hd, by omega⟩
        · -- a non-appended blank has `ce + 1 ≥ 2`, so the next step stops
          simp only [alignedScanB, h0, h1, h2, not_false_eq_true, if_true, if_false,
            Bool.false_eq_true, Bool.true_eq_false] at h ⊢
          match rest, h with
          | [], h => simp [alignedScanB] at h; exact Or.inl h
          | r :: rs, h =>
            have hstop : 2 ≤ ce + 1 := by omega
            simp [alignedScanB, hstop] at h
            exact Or.inl h

/-- The delimited collection loop appends at most one row per
remaining line. -/
theorem delimScanB_le (rest : List Line) :
    ∀ c ce, delimScanB rest c ce ≤ c + rest.length := by
  induction rest with
  | nil => intro c ce; simp [delimScanB]
  | cons line rest ih =>
    intro c ce
    simp only [delimScanB]
    split
    · simp
    · split
      · split
        · have := ih (c + 1) (ce + 1)
          simp only [List.length_cons]; omega
        · have := ih c (ce + 1)
          simp only [List.length_cons]; omega
      · split
        · have := ih (c + 1) 0
          simp only [List.length_cons]; omega
        · simp

/-- The pipe collection loop appends at most one row per remaining
line. -/
theorem pipeScanB_le (rest : List Line) :
    ∀ c, pipeScanB rest c ≤ c + rest.length := by
  induction rest with
  | nil => intro c; simp [pipeScanB]
  | cons line rest ih =>
    intro c
    simp only [pipeScanB]
    split
    · have := ih (c + 1)
      simp only [List.length_cons]; omega
    · split
      · have := ih (c + 1)
        simp only [List.length_cons]; omega
      · simp

/-- The title probe moves the region start up by at most one line. -/
theorem finTitleStart_le (lines : List Line) (s : Nat) :
    (finTitleStart lines s).2 ≤ s ∧ s ≤ (finTitleStart lines s).2 + 1 := by
  unfold finTitleStart
  split
  · dsimp only
    split
    · exact ⟨by show s - 1 ≤ s; omega, by show s ≤ s - 1 + 1; omega⟩
    · simp
  · simp

/-- C3 (amended): the financial-anchored and aligned extraction
strategies of `TableParser` accept only candidates with at least
`TABLE_MIN_ROWS` collected rows *and* a digit seen on some scanned
line — a line between the anchor and one past the region end, which
may be the first rejected line just beyond the region, so the region
itself may lack digits; the delimited-anchored and pipe-anchored
strategies enforce only the row minimum and accept digit-free
tables. -/
theorem table_min_acceptance_C3 :
    (∀ lines start t, extractFinancialTableB lines start = some t →
        TABLE_MIN_ROWS ≤ t.raw_lines.length ∧
          ∃ j l, start ≤ j ∧ j ≤ t.end_line + 1 ∧ lines.get? j = some l ∧
            l.any isPyDigit = true) ∧
    (∀ lines start t, extractAlignedTable lines start = some t →
        TABLE_MIN_ROWS ≤ t.raw_lines.length ∧
          ∃ j l, start ≤ j ∧ j ≤ t.end_line + 1 ∧ lines.get? j = some l ∧
            l.any isPyDigit = true) ∧
    (∀ lines dl t, dl < lines.length → extractDelimitedTable lines dl = some t →
        TABLE_MIN_ROWS ≤ t.raw_lines.length) ∧
    (∀ lines start t, extractPipeTable lines start = some t →
        TABLE_MIN_ROWS ≤ t.raw_lines.length) := by
  refine ⟨?_, ?_, ?_, ?_⟩
  · intro lines start t h
    simp only [extractFinancialTableB] at h
    split at h
    · exact absurd h (by simp)
    · rename_i hguard
      push_neg at hguard
      obtain ⟨hrows, hflag⟩ := hguard
      rw [Option.some.injEq] at h
      subst h
      have hle := finScanB_count_le (lines.drop start) 0 0 false
      have hts := finTitleStart_le lines start
      simp only [List.length_drop] at hle
      have hflag2 : (finScanB (lines.drop start) 0 0 false).2 = true := by
        cases hv : (finScanB (lines.drop start) 0 0 false).2
        · exact absurd hv hflag
        · rfl
      constructor
      · simp only [List.length_take, List.length_drop]
        have : TABLE_MIN_ROWS ≤ (finScanB (lines.drop start) 0 0 false).1 := by
          omega
        simp only [TABLE_MIN_ROWS] at this ⊢
        omega
      · rcases finScanB_digit (lines.drop start) 0 0 false hflag2 with hfalse | ⟨k, l, hk, hd, hb⟩
        · exact absurd hfalse (by simp)
        · refine ⟨start + k, l, by omega, ?_, ?_, hd⟩
          · dsimp only
            simp only [TABLE_MIN_ROWS] at hrows
            omega
          · rw [← hk]
            simp [List.get?_eq_getElem?, List.getElem?_drop]
  · intro lines start t h
    simp only [extractAlignedTable] at h
    split at h
    · exact absurd h (by simp)
    · rename_i hguard
      push_neg at hguard
      obtain ⟨hrows, hflag⟩ := hguard
      rw [Option.some.injEq] at h
      subst h
      have hle := alignedScanB_count_le (lines.drop (start + 1)) 0 0 false
      simp only [List.length_drop] at hle
      have hflag2 : (alignedScanB (lines.drop (start + 1)) 0 0 false).2 = true := by
        cases hv : (alignedScanB (lines.drop (start + 1)) 0 0 false).2
        · exact absurd hv hflag
        · rfl
      constructor
      · simp only [List.length_take, List.length_drop]
        simp only [TABLE_MIN_ROWS] at hrows ⊢
        omega
      · rcases alignedScanB_digit (lines.drop (start + 1)) 0 0 false hflag2 with
          hfalse | ⟨k, l, hk, hd, hb⟩
        · exact absurd hfalse (by simp)
        · refine ⟨start + 1 + k, l, by omega, ?_, ?_, hd⟩
          · dsimp only
            simp only [TABLE_MIN_ROWS] at hrows
            omega
          · rw [← hk]
            simp [List.get?_eq_getElem?, List.getElem?_drop]
  · intro lines dl t hdl h
    simp only [extractDelimitedTable] at h
    have hle := delimScanB_le (lines.drop (dl + 1)) 0 0
    simp only [List.length_drop] at hle
    split at h
    · exact absurd h (by simp)
    · split at h
      · rename_i hblank hpos
        split at h
        · exact absurd h (by simp)
        · rename_i hguard
          rw [Option.some.injEq] at h
          subst h
          simp only [List.length_take, List.length_drop]
          simp only [not_lt, TABLE_MIN_ROWS] at hguard ⊢
          omega
      · rename_i hblank hpos
        split at h
        · exact absurd h (by simp)
        · rename_i hguard
          rw [Option.some.injEq] at h
          subst h
          simp only [List.length_take, List.length_drop]
          simp only [not_lt, TABLE_MIN_ROWS] at hguard ⊢
          omega
  · intro lines start t h
    simp only [extractPipeTable] at h
    split at h
    · exact absurd h (by simp)
    · rename_i hguard
      push_neg at hguard
      rw [Option.some.injEq] at h
      subst h
      have hle := pipeScanB_le (lines.drop start) 0
      simp only [List.length_drop] at hle
      simp only [List.length_take, List.length_drop]
      simp only [not_lt, TABLE_MIN_ROWS] at hguard ⊢
      omega

/-- C3 (counterexample): the pipe-anchored strategy accepts the
two-line table `a|b|c` / `d|e|f` although no line bears a digit,
refuting the claim that every accepted table contains a digit-bearing
line. -/
theorem table_no_digit_counterexample_C3 :
    extractPipeTable ["a|b|c".data, "d|e|f".data] 0 =
        some ⟨0, 1, none, conf095, "delimited".data,
          ["a|b|c".data, "d|e|f".data]⟩ ∧
      (["a|b|c".data, "d|e|f".data] : List Line).all
        (fun l => !(l.any isPyDigit)) = true := by
  decide

/-- C3 (witness): the amended acceptance theorem applied to concrete
accepted tables of all four strategies. -/
theorem table_min_acceptance_C3_witness :
    (TABLE_MIN_ROWS ≤ 2 ∧ ∃ j l, 0 ≤ j ∧ j ≤ 2 ∧
        (["$100    $200".data, "$110    $210".data] : List Line).get? j = some l ∧
        l.any isPyDigit = true) ∧
    (TABLE_MIN_ROWS ≤ 2 ∧ ∃ j l, 0 ≤ j ∧ j ≤ 2 ∧
        (["Year Ended".data, "$100    $200".data] : List Line).get? j = some l ∧
        l.any isPyDigit = true) ∧
    TABLE_MIN_ROWS ≤ 2 ∧ TABLE_MIN_ROWS ≤ 2 :=
  ⟨table_min_acceptance_C3.1 _ 0 ⟨0, 1, none, conf095, "financial".data,
      ["$100    $200".data, "$110    $210".data]⟩ (by decide),
    table_min_acceptance_C3.2.1 _ 0 ⟨0, 1, none, conf080, "aligned".data,
      ["Year Ended".data, "$100    $200".data]⟩ (by decide),
    table_min_acceptance_C3.2.2.1 ["Header".data, "----".data] 1
      ⟨0, 1, none, conf090, "delimited".data, ["Header".data, "----".data]⟩
      (by decide) (by decide),
    table_min_acceptance_C3.2.2.2 ["a|b|c".data, "d|e|f".data] 0
      ⟨0, 1, none, conf095, "delimited".data, ["a|b|c".data, "d|e|f".data]⟩
      (by decide)⟩

/-- The enhanced financial collection loop never moves its cursor
backwards. -/
theorem finScanE_current_ge (startIdx : Nat) (rest : List Line) :
    ∀ idx ce st, idx ≤ (finScanE startIdx rest idx ce st).current := by
  induction rest with
  | nil => intro idx ce st; simp [finScanE]
  | cons line rest ih =>
    intro idx ce st
    simp only [finScanE]
    split
    · simp
    · split
      · have := ih (idx + 1) (ce + 1) st
        omega
      · split
        · have := ih (idx + 1) 0
            { current := idx, rows := st.rows + 1,
              hasMon := st.hasMon || line.contains '$' || line.any isPyDigit,
              hasPct := st.hasPct || line.contains '%' }
          omega
        · split
          · simp
          · have := ih (idx + 1) 0 st
            omega

/-- Every line the enhanced financial collection loop walks past at a
position more than 50 lines beyond the anchor is blank or data-like:
the silent-skip branch is only reachable within the 50-line window,
and a non-data line beyond it stops the walk. -/
theorem finScanE_limit (startIdx : Nat) (rest : List Line) :
    ∀ idx ce st k l, rest.get? k = some l →
      idx + k < (finScanE startIdx rest idx ce st).current →
      startIdx + 50 < idx + k →
      (¬ isNonBlank l = true) ∨
        (isFinancialDataLineE l || hasColumnarStructure l ||
          hasMultipleMonetaryValues l) = true := by
  induction rest with
  | nil => intro idx ce st k l hget; simp at hget
  | cons line rest ih =>
    intro idx ce st k l hget hlt hgt
    by_cases h0 : ce < 3
    · by_cases h1 : isNonBlank line = true
      · by_cases h2 : (isFinancialDataLineE line || hasColumnarStructure line ||
            hasMultipleMonetaryValues line) = true
        · simp only [finScanE, h0, h1, h2, not_true, not_false_eq_true, if_false,
            if_true, Bool.false_eq_true, Bool.true_eq_false] at hlt
          match k, hget with
          | 0, hget =>
            exact Or.inr (by rw [← Option.some.injEq] at hget; cases hget; exact h2)
          | k + 1, hget =>
            exact ih (idx + 1) 0
              { current := idx, rows := st.rows + 1,
                hasMon := st.hasMon || line.contains '$' || line.any isPyDigit,
                hasPct := st.hasPct || line.contains '%' }
              k l (by simpa using hget) (by omega) (by omega)
        · by_cases h3 : (isSectionBreak line = true ∨ 50 < idx - startIdx)
          · simp only [finScanE, h0, h1, h2, h3, not_true, not_false_eq_true,
              if_false, if_true, Bool.false_eq_true, Bool.true_eq_false] at hlt
            omega
          · simp only [finScanE, h0, h1, h2, h3, not_true, not_false_eq_true,
              if_false, if_true, Bool.false_eq_true, Bool.true_eq_false] at hlt
            match k, hget with
            | 0, hget => omega
            | k + 1, hget =>
              exact ih (idx + 1) 0 st k l (by simpa using hget) (by omega) (by omega)
      · simp only [finScanE, h0, h1, not_true, not_false_eq_true, if_true,
          if_false, Bool.false_eq_true, Bool.true_eq_false] at hlt
        match k, hget with
        | 0, hget =>
          refine Or.inl ?_
          rw [← Option.some.injEq] at hget
          cases hget
          simpa using h1
        | k + 1, hget =>
          exact ih (idx + 1) (ce + 1) st k l (by simpa using hget) (by omega) (by omega)
    · simp only [finScanE, h0, not_true, not_false_eq_true, if_false, if_true,
        Bool.false_eq_true, Bool.true_eq_false] at hlt
      omega

/-- C7 (amended): a table returned by the enhanced financial-anchored
extraction can extend more than 50 lines beyond its anchor, but only
through blank or data-like lines: the 50-line stop (and the
section-break stop) is applied only when a non-data line is
encountered, so every line of the region more than 50 lines past the
anchor is blank or financial-data/columnar/multi-monetary. -/
theorem financial_fifty_limit_C7 :
    ∀ lines start t, extractFinancialTableE lines start = .ok (some t) →
      ∀ j l, start + 50 < j → j ≤ t.end_line → lines.get? j = some l →
        (¬ isNonBlank l = true) ∨
          (isFinancialDataLineE l || hasColumnarStructure l ||
            hasMultipleMonetaryValues l) = true := by
  intro lines start t h j l hgt hle hget
  simp only [extractFinancialTableE] at h
  split at h
  · exact absurd h (by simp)
  · split at h
    · split at h
      · exact absurd h (by simp)
      · split at h
        · exact absurd h (by simp)
        · rw [Except.ok.injEq, Option.some.injEq] at h
          subst h
          have hcur := finScanE_current_ge start (lines.drop (start + 1))
            (start + 1) 0 ⟨start + 1, 0, false, false⟩
          refine finScanE_limit start (lines.drop (start + 1)) (start + 1) 0
            ⟨start + 1, 0, false, false⟩ (j - (start + 1)) l ?_ ?_ (by omega)
          · rw [← hget]
            simp only [List.get?_eq_getElem?, List.getElem?_drop]
            congr 1
            omega
          · dsimp only at hle
            omega
    · split at h
      · exact absurd h (by simp)
      · split at h
        · exact absurd h (by simp)
        · rw [Except.ok.injEq, Option.some.injEq] at h
          subst h
          have hcur := finScanE_current_ge start (lines.drop (start + 1))
            (start + 1) 0 ⟨start + 1, 1, false, false⟩
          refine finScanE_limit start (lines.drop (start + 1)) (start + 1) 0
            ⟨start + 1, 1, false, false⟩ (j - (start + 1)) l ?_ ?_ (by omega)
          · rw [← hget]
            simp only [List.get?_eq_getElem?, List.getElem?_drop]
            congr 1
            omega
          · dsimp only at hle
            omega

/-- C7 (counterexample): sixty consecutive financial-data lines
(`"revenue 1"`) grow a financial region of 60 lines — `end_line -
start_line = 59 > 50` — because the 50-line limit never fires on
data-like lines. -/
theorem financial_over_fifty_counterexample_C7 :
    extractFinancialTableE (List.replicate 60 "revenue 1".data) 0 =
        .ok (some ⟨0, 59, none, conf095, "financial".data, 60, true, false⟩) ∧
      50 < 59 - 0 := by
  decide

/-- C7 (witness): the amended theorem applied to the 60-line region at
line 55. -/
theorem financial_fifty_limit_C7_witness :
    (¬ isNonBlank "revenue 1".data = true) ∨
      (isFinancialDataLineE "revenue 1".data ||
        hasColumnarStructure "revenue 1".data ||
        hasMultipleMonetaryValues "revenue 1".data) = true :=
  financial_fifty_limit_C7 (List.replicate 60 "revenue 1".data) 0
    ⟨0, 59, none, conf095, "financial".data, 60, true, false⟩ (by decide)
    55 "revenue 1".data (by decide) (by decide) (by decide)

/-- C8 (amended): in the enhanced line classifier, a non-blank line
that earlier rules do not claim (not a delimiter run, no monetary
match with columnar evidence, not a table header) is classified
`table_content` when the `pipes` pattern `\|.*\|.*\|` matches — which
requires at least *three* pipe characters, not two. -/
theorem pipe_rule_C8 (line : Line) (allLines : List Line) (i : Nat)
    (h1 : (strip line).isEmpty = false)
    (h2 : searchDelimiters (strip line) = false)
    (h3 : (searchM mMonetary line && (hasRunGe isPySpace 4 line ||
      line.contains '\t' || searchM mNumericColumns line)) = false)
    (h4 : isEnhancedTableHeaderN line = false)
    (h5 : searchPipes line = true) :
    classifyLineEnhanced line allLines i = .table_content := by
  simp only [classifyLineEnhanced, h1, h2, h3, h4, h5, if_true, if_false,
    Bool.false_eq_true, Bool.true_eq_false, not_true, not_false_eq_true]

/-- C8 (counterexample): the line `a|b|c` has two pipe characters, is
non-blank and is claimed by no earlier rule, yet the classifier
returns `regular_text` — the `pipes` pattern `\|.*\|.*\|` needs three
pipes. -/
theorem pipe_rule_counterexample_C8 :
    2 ≤ countChar '|' "a|b|c".data ∧
      isNonBlank "a|b|c".data = true ∧
      searchDelimiters (strip "a|b|c".data) = false ∧
      (searchM mMonetary "a|b|c".data && (hasRunGe isPySpace 4 "a|b|c".data ||
        "a|b|c".data.contains '\t' || searchM mNumericColumns "a|b|c".data)) = false ∧
      isEnhancedTableHeaderN "a|b|c".data = false ∧
      classifyLineEnhanced "a|b|c".data ["a|b|c".data] 0 = .regular_text := by
  decide

/-- C8 (witness): the three-pipe line `a|b|c|d` is classified
`table_content`. -/
theorem pipe_rule_C8_witness :
    classifyLineEnhanced "a|b|c|d".data ["a|b|c|d".data] 0 = .table_content :=
  pipe_rule_C8 "a|b|c|d".data ["a|b|c|d".data] 0 (by decide) (by decide)
    (by decide) (by decide) (by decide)

/-- The output text up to and including the `Extraction Date: ` label. -/
def formatHeaderPre (r : ExtractionResultR) : Text :=
  List.replicate 80 '=' ++
    ('\n' :: ("CIK: ".data ++ r.cik)) ++
    ('\n' :: ("Company: ".data ++ r.company_name)) ++
    ('\n' :: ("Form Type: ".data ++ r.form_type)) ++
    ('\n' :: ("Filing Date: ".data ++ r.filing_date_str)) ++
    ('\n' :: "Extraction Date: ".data)

/-- The output text after the timestamp. -/
def formatTail (r : ExtractionResultR) : Text :=
  ('\n' :: ("Word Count: ".data ++ (Nat.repr r.word_count).data)) ++
    ('\n' :: List.replicate 80 '=') ++
    ('\n' :: ([] : Line)) ++
    ('\n' :: r.mdna_text)

/-- The formatted output splits around the interpolated timestamp. -/
theorem formatOutput_decomp (r : ExtractionResultR) (now : Line) :
    formatOutput r now = formatHeaderPre r ++ (now ++ formatTail r) := by
  simp [formatOutput, formatOutputLines, joinLines, joinWith,
    formatHeaderPre, formatTail]

/-- C4 (amended): the saved output is a deterministic function of the
extraction result *and* the wall-clock timestamp interpolated into the
`Extraction Date` header line: two runs on the same result agree on
every header/body line except line 5 (the `Extraction Date` line), and
the full outputs are byte-identical exactly when the timestamps are
equal. -/
theorem format_output_C4 (r : ExtractionResultR) (n₁ n₂ : Line) :
    (∀ i, i ≠ 5 →
      (formatOutputLines r n₁).get? i = (formatOutputLines r n₂).get? i) ∧
    (formatOutput r n₁ = formatOutput r n₂ ↔ n₁ = n₂) := by
  constructor
  · intro i hi
    match i with
    | 0 | 1 | 2 | 3 | 4 => rfl
    | 5 => exact absurd rfl hi
    | 6 | 7 | 8 | 9 => rfl
    | n + 10 => rfl
  · constructor
    · intro h
      rw [formatOutput_decomp, formatOutput_decomp] at h
      exact List.append_cancel_right (List.append_cancel_left h)
    · intro h
      rw [h]

set_option maxRecDepth 4096 in
/-- C4 (counterexample): the same extraction result formatted at two
different timestamps yields different bytes, refuting byte-identical
re-runs. -/
theorem format_output_counterexample_C4 :
    formatOutput ⟨"0000000123".data, "Acme Corp".data, "10-K".data,
        "2020-01-15 00:00:00".data, 5, "Body text.".data⟩
        "2026-10-12T00:00:00".data ≠
      formatOutput ⟨"0000000123".data, "Acme Corp".data, "10-K".data,
        "2020-01-15 00:00:00".data, 5, "Body text.".data⟩
        "2026-10-12T00:00:01".data := by
  decide

/-- C4 (witness): the amended theorem applied to a concrete result and
two concrete timestamps. -/
theorem format_output_C4_witness :
    (formatOutputLines ⟨"0000000123".data, "Acme Corp".data, "10-K".data,
        "2020-01-15 00:00:00".data, 5, "Body text.".data⟩
        "2026-10-12T00:00:00".data).get? 0 =
      (formatOutputLines ⟨"0000000123".data, "Acme Corp".data, "10-K".data,
        "2020-01-15 00:00:00".data, 5, "Body text.".data⟩
        "2026-10-12T00:00:01".data).get? 0 ∧
    (formatOutput ⟨"0000000123".data, "Acme Corp".data, "10-K".data,
        "2020-01-15 00:00:00".data, 5, "Body text.".data⟩
        "2026-10-12T00:00:00".data =
      formatOutput ⟨"0000000123".data, "Acme Corp".data, "10-K".data,
        "2020-01-15 00:00:00".data, 5, "Body text.".data⟩
        "2026-10-12T00:00:01".data ↔
      "2026-10-12T00:00:00".data = "2026-10-12T00:00:01".data) :=
  ⟨(format_output_C4 ⟨"0000000123".data, "Acme Corp".data, "10-K".data,
      "2020-01-15 00:00:00".data, 5, "Body text.".data⟩
      "2026-10-12T00:00:00".data "2026-10-12T00:00:01".data).1 0 (by decide),
    (format_output_C4 ⟨"0000000123".data, "Acme Corp".data, "10-K".data,
      "2020-01-15 00:00:00".data, 5, "Body text.".data⟩
      "2026-10-12T00:00:00".data "2026-10-12T00:00:01".data).2⟩

/-- C9 (amended): the form type is never underivable — when neither
regex pattern nor upper-cased substring matches, `_extract_form_type`
returns the `'10-K'` default — and per-document filing creation
succeeds exactly when an identifier (CIK) is derivable from the
filename or the content, independent of any form-type evidence. -/
theorem form_type_default_C9 :
    (∀ content, formTypePatternResult content = none →
        formTypeSubstring content = none →
        extractFormType content = "10-K".data) ∧
    ∀ filename content,
      (createFilingFromText filename content).isSome =
        ((parseFilenameMetadata filename).1.isSome ||
          (extractCik content).isSome) := by
  constructor
  · intro content h1 h2
    simp [extractFormType, h1, h2]
  · intro filename content
    simp only [createFilingFromText]
    cases hm : (parseFilenameMetadata filename).1 with
    | some c => simp
    | none =>
      cases hc : extractCik content with
      | some c => simp
      | none => simp

/-- C9 (counterexample): a document whose filename matches no metadata
pattern and whose header matches no form-type pattern still yields a
`Filing` (form type defaulted to `10-K`), refuting the hard-failure
claim. -/
theorem no_form_type_counterexample_C9 :
    parseFilenameMetadata "foo.txt".data = (none, none, none) ∧
      formTypePatternResult "CENTRAL INDEX KEY: 123\nHello.".data = none ∧
      formTypeSubstring "CENTRAL INDEX KEY: 123\nHello.".data = none ∧
      createFilingFromText "foo.txt".data "CENTRAL INDEX KEY: 123\nHello.".data =
        some ⟨"0000000123".data, "Unknown Company".data, "10-K".data, none⟩ := by
  decide

/-- C9 (witness): the default and the success criterion at a concrete
pattern-free document. -/
theorem form_type_default_C9_witness :
    extractFormType "CENTRAL INDEX KEY: 123\nHello.".data = "10-K".data ∧
      (createFilingFromText "foo.txt".data
          "CENTRAL INDEX KEY: 123\nHello.".data).isSome =
        ((parseFilenameMetadata "foo.txt".data).1.isSome ||
          (extractCik "CENTRAL INDEX KEY: 123\nHello.".data).isSome) :=
  ⟨form_type_default_C9.1 "CENTRAL INDEX KEY: 123\nHello.".data
      (by decide) (by decide),
    form_type_default_C9.2 "foo.txt".data "CENTRAL INDEX KEY: 123\nHello.".data⟩

/-- C10: absence of a derivable company name is never fatal: when none
of the three labelled patterns yields a usable name the extractor
totally returns `"Unknown Company"`, every created filing carries the
extracted name, and creation succeeds exactly when a CIK is derivable
— the mandatory-metadata check reads only the identifier and the
(always-derivable) form type. -/
theorem company_name_default_C10 (filename : Line) (content : Text) :
    (companyCandidate ["company".data, "conformed".data, "name:".data]
        content = none →
      companyCandidate ["conformed".data, "name:".data] content = none →
      companyCandidate ["registrant".data, "name:".data] content = none →
      extractCompanyName content = "Unknown Company".data) ∧
    (∀ f, createFilingFromText filename content = some f →
      f.company_name = extractCompanyName content) ∧
    (createFilingFromText filename content).isSome =
      ((parseFilenameMetadata filename).1.isSome ||
        (extractCik content).isSome) := by
  refine ⟨?_, ?_, ?_⟩
  · intro h1 h2 h3
    simp [extractCompanyName, h1, h2, h3]
  · intro f hf
    simp only [createFilingFromText] at hf
    cases hm : (parseFilenameMetadata filename).1 with
    | some c =>
      rw [hm] at hf
      simp only [Option.some.injEq] at hf
      rw [← hf]
    | none =>
      rw [hm] at hf
      cases hc : extractCik content with
      | some c =>
        rw [hc] at hf
        simp only [Option.some.injEq] at hf
        rw [← hf]
      | none =>
        rw [hc] at hf
        exact absurd hf (by simp)
  · simp only [createFilingFromText]
    cases hm : (parseFilenameMetadata filename).1 with
    | some c => simp
    | none =>
      cases hc : extractCik content with
      | some c => simp
      | none => simp

/-- C10 (witness): a document with a CIK but no recognisable company
name produces a filing named `"Unknown Company"`. -/
theorem company_name_default_C10_witness :
    extractCompanyName "CENTRAL INDEX KEY: 123\nHello.".data =
        "Unknown Company".data ∧
      (⟨"0000000123".data, "Unknown Company".data, "10-K".data, none⟩ :
          FilingR).company_name =
        extractCompanyName "CENTRAL INDEX KEY: 123\nHello.".data :=
  ⟨(company_name_default_C10 "foo.txt".data
      "CENTRAL INDEX KEY: 123\nHello.".data).1 (by decide) (by decide) (by decide),
    (company_name_default_C10 "foo.txt".data
      "CENTRAL INDEX KEY: 123\nHello.".data).2.1
      ⟨"0000000123".data, "Unknown Company".data, "10-K".data, none⟩ (by decide)⟩

/-- Dropping a satisfied-prefix does not change all-ness. -/
theorem all_dropWhile_eq (p : Char → Bool) (l : Line) :
    (l.dropWhile p).all p = l.all p := by
  conv_rhs => rw [← List.takeWhile_append_dropWhile (p := p) (l := l)]
  rw [List.all_append, List.all_takeWhile]
  simp

/-- Dropping a satisfied-prefix empties the list exactly on
all-satisfying input. -/
theorem isEmpty_dropWhile (p : Char → Bool) (u : Line) :
    (u.dropWhile p).isEmpty = u.all p := by
  rw [Bool.eq_iff_iff]
  simp only [List.isEmpty_iff, List.dropWhile_eq_nil_iff, List.all_eq_true]

/-- Right-stripping leaves the empty string exactly on all-whitespace
input. -/
theorem rstrip_isEmpty (t : Line) : (rstrip t).isEmpty = t.all isPySpace := by
  rw [rstrip, Bool.eq_iff_iff]
  simp only [List.isEmpty_iff, List.reverse_eq_nil_iff]
  rw [← List.isEmpty_iff, isEmpty_dropWhile]
  simp

/-- Stripping leaves the empty string exactly on all-whitespace
input. -/
theorem strip_isEmpty (u : Line) : (strip u).isEmpty = u.all isPySpace := by
  rw [strip, rstrip_isEmpty, lstrip, all_dropWhile_eq]

/-- Right-stripping does not change all-whitespace-ness. -/
theorem all_rstrip (s : Line) :
    (rstrip s).all isPySpace = s.all isPySpace := by
  rw [rstrip]
  rw [show ((s.reverse.dropWhile isPySpace).reverse).all isPySpace =
      (s.reverse.dropWhile isPySpace).all isPySpace by simp]
  rw [all_dropWhile_eq]
  simp

/-- A right-stripped line is blank exactly when the original is. -/
theorem isNonBlank_rstrip (l : Line) :
    isNonBlank (rstrip l) = isNonBlank l := by
  simp only [isNonBlank, strip_isEmpty, all_rstrip]

theorem splitOnP_seg_all (p : Char → Bool) (l : Line) :
    ∀ seg ∈ l.splitOnP p, seg.all (fun c => !p c) = true := by
  induction l with
  | nil =>
    intro seg h
    simp only [List.splitOnP_nil, List.mem_singleton] at h
    subst h; rfl
  | cons c cs ih =>
    intro seg h
    rw [List.splitOnP_cons] at h
    by_cases hc : p c = true
    · rw [if_pos hc] at h
      rcases List.mem_cons.mp h with rfl | hm
      · rfl
      · exact ih seg hm
    · rw [if_neg hc] at h
      cases hsp : List.splitOnP p cs with
      | nil => exact absurd hsp (List.splitOnP_ne_nil _ _)
      | cons hd t =>
        rw [hsp] at h
        simp only [List.modifyHead] at h
        rcases List.mem_cons.mp h with rfl | hm
        · have hhd := ih hd (by rw [hsp]; exact List.mem_cons_self _ _)
          simp [List.all_cons, hc, hhd]
        · exact ih seg (by rw [hsp]; exact List.mem_cons_of_mem _ hm)

theorem wsSplit_eq_nil_iff (l : Line) :
    wsSplit l = [] ↔ l.all isPySpace = true := by
  induction l with
  | nil => simp [wsSplit]
  | cons c cs ih =>
    unfold wsSplit at ih ⊢
    rw [List.splitOnP_cons]
    by_cases hc : isPySpace c = true
    · rw [if_pos hc, List.filter_cons]
      rw [show (decide ¬(List.isEmpty ([] : Line) = true)) = false from by decide]
      simp only [Bool.false_eq_true, if_false]
      rw [List.all_cons, hc, Bool.true_and]
      exact ih
    · rw [if_neg hc]
      cases hsp : List.splitOnP isPySpace cs with
      | nil => exact absurd hsp (List.splitOnP_ne_nil _ _)
      | cons hd t =>
        simp only [List.modifyHead, List.filter_cons]
        rw [show (decide ¬(List.isEmpty (c :: hd) = true)) = true from by
          simp [List.isEmpty_cons]]
        rw [if_pos rfl]
        constructor
        · intro h; exact absurd h (List.cons_ne_nil _ _)
        · intro h
          rw [List.all_cons] at h
          exact absurd ((Bool.and_eq_true _ _).mp h).1 hc

theorem collapseWs_not_all_space (l : Line) (h : l.all isPySpace = false) :
    (collapseWs l).all isPySpace = false := by
  cases hp : wsSplit l with
  | nil =>
    exact absurd ((wsSplit_eq_nil_iff l).mp hp) (by simp [h])
  | cons q qs =>
    have hqs : q ∈ wsSplit l := by rw [hp]; exact List.mem_cons_self _ _
    unfold wsSplit at hqs
    have h1 := List.of_mem_filter hqs
    have h2 := List.mem_of_mem_filter hqs
    have hqa : q.all (fun c => !isPySpace c) = true :=
      splitOnP_seg_all isPySpace l q h2
    have hcw : collapseWs l = q ++ ((qs.map (fun r => [' '] ++ r)).flatten) := by
      rw [collapseWs, hp]; rfl
    rw [hcw, List.all_append]
    cases q with
    | nil => simp at h1
    | cons d ds =>
      have hd : isPySpace d = false := by
        rw [List.all_cons] at hqa
        simpa using ((Bool.and_eq_true _ _).mp hqa).1
      simp [List.all_cons, hd]

theorem isNonBlank_all_iff (s : Line) :
    isNonBlank s = true ↔ s.all isPySpace = false := by
  simp only [isNonBlank, strip_isEmpty]
  constructor
  · intro h; simpa using of_decide_eq_true h
  · intro h; exact decide_eq_true (by simp [h])

theorem isNonBlank_collapsed (k : Nat) (l : Line) (h : isNonBlank l = true) :
    isNonBlank (List.replicate k ' ' ++ collapseWs l) = true := by
  rw [isNonBlank_all_iff] at h ⊢
  rw [List.all_append]
  rw [collapseWs_not_all_space l h, Bool.and_false]

theorem cleanEmptyAux_mem_of_nonblank (x : Line) (hnb : isNonBlank x = true) :
    ∀ (ls : List Line) (ec : Nat), x ∈ ls → x ∈ cleanEmptyAux ec ls := by
  intro ls
  induction ls with
  | nil => intro ec h; cases h
  | cons l t ih =>
    intro ec h
    rcases List.mem_cons.mp h with rfl | hm
    · rw [cleanEmptyAux, if_neg (by simp [hnb])]
      exact List.mem_cons_self _ _
    · by_cases hl : isNonBlank l = true
      · rw [cleanEmptyAux, if_neg (by simp [hl])]
        exact List.mem_cons_of_mem _ (ih 0 hm)
      · rw [cleanEmptyAux, if_pos (by simp [hl])]
        by_cases hec : ec + 1 ≤ 3
        · rw [if_pos hec]
          exact List.mem_cons_of_mem _ (ih _ hm)
        · rw [if_neg hec]
          exact ih _ hm

theorem processStep_mem (x : Line) (acc : List Line) (line : Line)
    (cls : LineClass) (h : x ∈ acc) : x ∈ processStep acc line cls := by
  cases cls <;> simp only [processStep] <;>
    first
      | exact List.mem_append_left _ h
      | (split
         · exact List.mem_append_left _ h
         · split
           · exact List.mem_append_left _ h
           · exact h)

theorem foldl_processStep_mem (x : Line) :
    ∀ (ps : List (Line × LineClass)) (acc : List Line), x ∈ acc →
      x ∈ ps.foldl (fun a p => processStep a p.1 p.2) acc := by
  intro ps
  induction ps with
  | nil => intro acc h; exact h
  | cons p t ih =>
    intro acc h
    exact ih _ (processStep_mem _ _ _ _ h)

theorem foldl_processStep_emit (line : Line) (cls : LineClass)
    (ps : List (Line × LineClass)) (acc : List Line)
    (hmem : (line, cls) ∈ ps) (e : Line)
    (he : ∀ a : List Line, e ∈ processStep a line cls) :
    e ∈ ps.foldl (fun a p => processStep a p.1 p.2) acc := by
  obtain ⟨s, t, rfl⟩ := List.append_of_mem hmem
  rw [List.foldl_append, List.foldl_cons]
  exact foldl_processStep_mem e t _ (he _)

theorem zip_classify_mem (lines : List Line) (i : Nat) (hi : i < lines.length) :
    (lines[i], classifyLineEnhanced lines[i] lines i) ∈
      lines.zip (classifyAll lines) := by
  have hlen : (classifyAll lines).length = lines.length := by
    simp [classifyAll]
  have hz : i < (lines.zip (classifyAll lines)).length := by
    rw [List.length_zip, hlen, Nat.min_self]; exact hi
  have hcg : (classifyAll lines)[i] = classifyLineEnhanced lines[i] lines i := by
    simp only [classifyAll, List.getElem_map, List.getElem_range,
      List.getD_eq_getElem lines [] hi]
  have := List.getElem_mem hz
  rw [List.getElem_zip, hcg] at this
  exact this

theorem classify_nonblank (line : Line) (allLines : List Line) (i : Nat)
    (h : classifyLineEnhanced line allLines i ≠ .empty) :
    isNonBlank line = true := by
  by_cases he : (strip line).isEmpty = true
  · exfalso
    apply h
    rw [classifyLineEnhanced]
    simp only [he, if_true]
  · simp [isNonBlank, he]

/-- C2: the assembly-time prose/monetary emission rules.  In
`_aggressively_preserve_tables`, a line classified `regular_text` is
emitted whitespace-collapsed with at most four columns of its original
indentation (the spec's prose-collapse half, confirmed), while a line
classified `monetary_data` is emitted `rstrip`ped — trailing whitespace
is removed, so it is byte-identical to its input only when the input
has no trailing whitespace (the spec's byte-identical half, corrected). -/
theorem preserve_pass_C2 (lines : List Line) (i : Nat) (hi : i < lines.length) :
    (classifyLineEnhanced lines[i] lines i = .monetary_data →
      rstrip lines[i] ∈ cleanExcessiveEmptyLines (processPass lines)) ∧
    (classifyLineEnhanced lines[i] lines i = .regular_text →
      List.replicate (min (lines[i].length - (lstrip lines[i]).length) 4) ' '
          ++ collapseWs lines[i] ∈ cleanExcessiveEmptyLines (processPass lines)) := by
  constructor
  · intro hcls
    have hnb : isNonBlank lines[i] = true :=
      classify_nonblank _ _ _ (by rw [hcls]; intro h; cases h)
    have hmem := zip_classify_mem lines i hi
    rw [hcls] at hmem
    rw [cleanExcessiveEmptyLines]
    apply cleanEmptyAux_mem_of_nonblank _ (by rw [isNonBlank_rstrip]; exact hnb)
    rw [processPass]
    exact foldl_processStep_emit lines[i] .monetary_data _ [] hmem _
      (fun a => by simp [processStep])
  · intro hcls
    have hnb : isNonBlank lines[i] = true :=
      classify_nonblank _ _ _ (by rw [hcls]; intro h; cases h)
    have hall : lines[i].all isPySpace = false := (isNonBlank_all_iff _).mp hnb
    have hne : (collapseWs lines[i]).isEmpty = false := by
      cases hcw : collapseWs lines[i] with
      | nil =>
        have := collapseWs_not_all_space lines[i] hall
        rw [hcw] at this
        simp at this
      | cons a b => rfl
    have hmem := zip_classify_mem lines i hi
    rw [hcls] at hmem
    rw [cleanExcessiveEmptyLines]
    apply cleanEmptyAux_mem_of_nonblank _ (isNonBlank_collapsed _ _ hnb)
    rw [processPass]
    apply foldl_processStep_emit lines[i] .regular_text _ [] hmem
    intro a
    simp only [processStep]
    rw [if_pos (by simp [hne])]
    exact List.mem_append_right _ (List.mem_singleton.mpr rfl)

theorem preserve_counterexample_C2 :
    classifyLineEnhanced ("$ 1,000     2,000  ").data
        (splitLines ("The   company   grew.\n$ 1,000     2,000  ").data) 1 =
      .monetary_data ∧
    aggressivelyPreserveTables ("The   company   grew.\n$ 1,000     2,000  ").data =
      ("The company grew.\n$ 1,000     2,000").data ∧
    ¬ ("$ 1,000     2,000  ").data ∈ splitLines
        (aggressivelyPreserveTables
          ("The   company   grew.\n$ 1,000     2,000  ").data) := by
  refine ⟨by decide, by decide, by decide⟩

theorem preserve_pass_C2_witness :
    rstrip ("$ 1,000     2,000  ").data ∈
      cleanExcessiveEmptyLines (processPass
        [("The   company   grew.").data, ("$ 1,000     2,000  ").data]) :=
  (preserve_pass_C2
    [("The   company   grew.").data, ("$ 1,000     2,000  ").data] 1
    (by decide)).1 (by decide)


def totalLen : List Line → Nat
  | [] => 0
  | [l] => l.length
  | l :: rest => l.length + 1 + totalLen rest

def lineIdx : List Line → Nat → Nat → Nat
  | [], _, i => i
  | l :: rest, p, i =>
    if p ≤ l.length then i else lineIdx rest (p - (l.length + 1)) (i + 1)

theorem joinWith_one_eq_intercalate (c : Char) :
    ∀ ls : List Line, joinWith [c] ls = [c].intercalate ls := by
  intro ls
  induction ls with
  | nil => simp [joinWith, List.intercalate]
  | cons p ps ih =>
    cases ps with
    | nil => simp [joinWith, List.intercalate]
    | cons q rest =>
      rw [show joinWith [c] (p :: q :: rest) =
            p ++ [c] ++ joinWith [c] (q :: rest) by
          simp [joinWith]]
      rw [ih]
      simp [List.intercalate, List.intersperse]

theorem totalLen_join (c : Char) :
    ∀ ls : List Line, (joinWith [c] ls).length = totalLen ls := by
  intro ls
  induction ls with
  | nil => rfl
  | cons p ps ih =>
    cases ps with
    | nil => simp [joinWith, totalLen]
    | cons q rest =>
      rw [show joinWith [c] (p :: q :: rest) =
            p ++ [c] ++ joinWith [c] (q :: rest) by
          simp [joinWith]]
      rw [show totalLen (p :: q :: rest) =
            p.length + 1 + totalLen (q :: rest) from rfl]
      simp [ih]
      omega

theorem totalLen_splitLines (content : Text) :
    totalLen (splitLines content) = content.length := by
  rw [← totalLen_join '\n', joinWith_one_eq_intercalate, splitLines,
    List.intercalate_splitOn]

theorem lineIdx_ge (lines : List Line) :
    ∀ p i, i ≤ lineIdx lines p i := by
  induction lines with
  | nil => intro p i; exact Nat.le_refl i
  | cons l rest ih =>
    intro p i
    rw [lineIdx]
    split
    · exact Nat.le_refl i
    · exact Nat.le_trans (Nat.le_succ i) (ih _ _)

theorem lineIdx_lt (lines : List Line) (hne : lines ≠ []) :
    ∀ p i, p ≤ totalLen lines → lineIdx lines p i < i + lines.length := by
  induction lines with
  | nil => exact absurd rfl hne
  | cons l rest ih =>
    intro p i hp
    rw [lineIdx]
    split
    · simp
    · cases rest with
      | nil =>
        exfalso
        rw [show totalLen [l] = l.length from rfl] at hp
        omega
      | cons q rs =>
        have hp2 : p - (l.length + 1) ≤ totalLen (q :: rs) := by
          rw [show totalLen (l :: q :: rs) =
                l.length + 1 + totalLen (q :: rs) from rfl] at hp
          omega
        have := ih (by simp) (p - (l.length + 1)) (i + 1) hp2
        simpa [Nat.add_comm, Nat.add_assoc, Nat.add_left_comm] using
          Nat.lt_of_lt_of_le this (by simp [List.length_cons]; omega)

theorem lineIdx_mono (lines : List Line) :
    ∀ p q i, p ≤ q → lineIdx lines p i ≤ lineIdx lines q i := by
  induction lines with
  | nil => intro p q i _; exact Nat.le_refl i
  | cons l rest ih =>
    intro p q i hpq
    rw [lineIdx, lineIdx]
    by_cases hq : q ≤ l.length
    · rw [if_pos (Nat.le_trans hpq hq), if_pos hq]
    · rw [if_neg hq]
      by_cases hp : p ≤ l.length
      · rw [if_pos hp]
        exact Nat.le_trans (Nat.le_succ i) (lineIdx_ge rest _ _)
      · rw [if_neg hp]
        exact ih _ _ _ (by omega)

theorem mapLoop_snd (lines : List Line) (hne : lines ≠ []) :
    ∀ s e cp i sl el, cp ≤ e → e ≤ cp + totalLen lines →
      (mapLoop lines s e cp i sl el).2 = lineIdx lines (e - cp) i := by
  induction lines with
  | nil => exact absurd rfl hne
  | cons l rest ih =>
    intro s e cp i sl el hce he
    simp only [mapLoop]
    by_cases hbr : e ≤ cp + l.length
    · rw [if_pos ⟨hce, hbr⟩, lineIdx,
        if_pos (show e - cp ≤ l.length from by omega)]
    · rw [if_neg (fun h => hbr h.2), lineIdx,
        if_neg (show ¬ (e - cp ≤ l.length) from by omega)]
      cases rest with
      | nil =>
        exfalso
        rw [show totalLen [l] = l.length from rfl] at he
        omega
      | cons q rs =>
        rw [ih (by simp) s e (cp + l.length + 1) (i + 1) _ el (by omega)
            (by rw [show totalLen (l :: q :: rs) =
                  l.length + 1 + totalLen (q :: rs) from rfl] at he; omega)]
        congr 1
        omega

theorem mapLoop_fst_stable (lines : List Line) :
    ∀ s e cp i sl el, s < cp →
      (mapLoop lines s e cp i sl el).1 = sl := by
  induction lines with
  | nil => intro s e cp i sl el _; rfl
  | cons l rest ih =>
    intro s e cp i sl el hs
    simp only [mapLoop]
    rw [if_neg (by omega : ¬ (cp ≤ s ∧ s ≤ cp + l.length))]
    split
    · rfl
    · exact ih s e (cp + l.length + 1) (i + 1) sl el (by omega)

theorem mapLoop_fst (lines : List Line) (hne : lines ≠ []) :
    ∀ s e cp i sl el, cp ≤ s → s ≤ e → s ≤ cp + totalLen lines →
      (mapLoop lines s e cp i sl el).1 = lineIdx lines (s - cp) i := by
  induction lines with
  | nil => exact absurd rfl hne
  | cons l rest ih =>
    intro s e cp i sl el hcs hse hsl
    simp only [mapLoop]
    by_cases hsline : s ≤ cp + l.length
    · rw [lineIdx, if_pos (show s - cp ≤ l.length from by omega)]
      by_cases hbr : cp ≤ e ∧ e ≤ cp + l.length
      · rw [if_pos hbr, if_pos ⟨hcs, hsline⟩]
      · rw [if_neg hbr, if_pos ⟨hcs, hsline⟩]
        exact mapLoop_fst_stable rest s e (cp + l.length + 1) (i + 1) i el
          (by omega)
    · rw [lineIdx, if_neg (show ¬ (s - cp ≤ l.length) from by omega)]
      rw [if_neg (show ¬ (cp ≤ e ∧ e ≤ cp + l.length) from
            fun h => hsline (Nat.le_trans hse h.2))]
      rw [if_neg (show ¬ (cp ≤ s ∧ s ≤ cp + l.length) from
            fun h => hsline h.2)]
      cases rest with
      | nil =>
        exfalso
        rw [show totalLen [l] = l.length from rfl] at hsl
        omega
      | cons q rs =>
        rw [ih (by simp) s e (cp + l.length + 1) (i + 1) sl el (by omega) hse
            (by rw [show totalLen (l :: q :: rs) =
                  l.length + 1 + totalLen (q :: rs) from rfl] at hsl; omega)]
        congr 1
        omega

theorem mapLoop_fallback (lines : List Line) :
    ∀ s e cp i sl el, cp + totalLen lines < e →
      (mapLoop lines s e cp i sl el).2 = el := by
  induction lines with
  | nil => intro s e cp i sl el _; rfl
  | cons l rest ih =>
    intro s e cp i sl el hgt
    have hl : l.length ≤ totalLen (l :: rest) := by
      cases rest with
      | nil => rw [show totalLen [l] = l.length from rfl]
      | cons q rs =>
        rw [show totalLen (l :: q :: rs) =
              l.length + 1 + totalLen (q :: rs) from rfl]
        omega
    simp only [mapLoop]
    rw [if_neg (by omega : ¬ (cp ≤ e ∧ e ≤ cp + l.length))]
    cases rest with
    | nil => rfl
    | cons q rs =>
      exact ih s e (cp + l.length + 1) (i + 1) _ el
        (by rw [show totalLen (l :: q :: rs) =
              l.length + 1 + totalLen (q :: rs) from rfl] at hgt; omega)

theorem splitLines_ne_nil (content : Text) : splitLines content ≠ [] := by
  rw [splitLines, List.splitOn]
  exact List.splitOnP_ne_nil _ _

/-- C5: the offset-to-line reconciler.  For offsets with
`s ≤ e ≤ content.length` the returned pair satisfies
`start_line ≤ end_line < number of lines` (the selected range holds at
least one line); each returned index is monotonically non-decreasing
in its offset; and when `end_pos` is not contained in any line's
`[line_start, line_end]` range — the line ranges tile exactly
`[0, content.length]`, so non-containment is `content.length < end_pos`
— the returned `end_line` is the index of the last line. -/
theorem map_positions_C5 (content : Text) (s e : Nat)
    (hse : s ≤ e) (he : e ≤ content.length) :
    ((mapPositionsToLines content s e).1 ≤ (mapPositionsToLines content s e).2 ∧
      (mapPositionsToLines content s e).2 < (splitLines content).length) ∧
    (∀ s2, s ≤ s2 → s2 ≤ e →
      (mapPositionsToLines content s e).1 ≤
        (mapPositionsToLines content s2 e).1) ∧
    (∀ e2, e ≤ e2 → e2 ≤ content.length →
      (mapPositionsToLines content s e).2 ≤
        (mapPositionsToLines content s e2).2) ∧
    (∀ e2, content.length < e2 →
      (mapPositionsToLines content s e2).2 =
        (splitLines content).length - 1) := by
  have hne := splitLines_ne_nil content
  have htl := totalLen_splitLines content
  have hfst : ∀ s2, s2 ≤ e →
      (mapPositionsToLines content s2 e).1 =
        lineIdx (splitLines content) s2 0 := by
    intro s2 hs2
    simp only [mapPositionsToLines]
    rw [mapLoop_fst _ hne s2 e 0 0 0 _ (Nat.zero_le _) hs2 (by omega),
      Nat.sub_zero]
  have hsnd : ∀ e2, e2 ≤ content.length →
      (mapPositionsToLines content s e2).2 =
        lineIdx (splitLines content) e2 0 := by
    intro e2 he2
    simp only [mapPositionsToLines]
    rw [mapLoop_snd _ hne s e2 0 0 0 _ (Nat.zero_le _) (by omega),
      Nat.sub_zero]
  refine ⟨⟨?_, ?_⟩, ?_, ?_, ?_⟩
  · rw [hfst s hse, hsnd e he]
    exact lineIdx_mono _ s e 0 hse
  · rw [hsnd e he]
    simpa using lineIdx_lt _ hne e 0 (by omega)
  · intro s2 hs2 hs2e
    rw [hfst s hse, hfst s2 hs2e]
    exact lineIdx_mono _ _ _ _ hs2
  · intro e2 he2 he2c
    rw [hsnd e he, hsnd e2 he2c]
    exact lineIdx_mono _ _ _ _ he2
  · intro e2 hgt
    simp only [mapPositionsToLines]
    exact mapLoop_fallback _ s e2 0 0 0 _ (by omega)

theorem map_positions_C5_witness :
    (mapPositionsToLines ("ab\ncde\n\nfg").data 3 6).1 ≤
      (mapPositionsToLines ("ab\ncde\n\nfg").data 3 6).2 ∧
    (mapPositionsToLines ("ab\ncde\n\nfg").data 3 20).2 = 3 :=
  ⟨((map_positions_C5 ("ab\ncde\n\nfg").data 3 6 (by decide) (by decide)).1).1,
   by
     have h := (map_positions_C5 ("ab\ncde\n\nfg").data 3 6 (by decide)
       (by decide)).2.2.2 20 (by decide)
     rw [h]; decide⟩

end MDNA
